import Mathlib

/-!
Shallow embedding of the TeX-generation utilities of the ValmikiRamayanam
repository, covering `scripts/generate_tex.py` and `src/generate_tex.py`,
together with theorems settling the specification claims about them.

Python strings are sequences of Unicode code points; they are modelled here
as `List Nat` (the list of code points), written `PyStr`.  The helper
`codes` turns a Lean string literal into this representation.  Character
classes appearing in the regular expressions of the source are modelled by
decidable predicates over code points, using the exact ranges the patterns
name.  The ASCII-only pieces of Python string methods that the scripts rely
on (`str.lower` applied after every non-alphanumeric character has been
replaced, `str.strip` of whitespace, `int` of a decimal literal) are
modelled over those same ranges.
-/

/-- A Python string, as its list of Unicode code points. -/
abbrev PyStr := List Nat

/-- Code points of a Lean string literal, for writing concrete inputs. -/
def codes (s : String) : PyStr := s.data.map Char.toNat

/-- Python whitespace as matched by the regex class backslash-s and by
`str.strip()` for the inputs in scope: space, tab, newline, carriage
return, vertical tab, form feed. -/
def isPySpace (c : Nat) : Bool :=
  decide (c = 32 ∨ c = 9 ∨ c = 10 ∨ c = 13 ∨ c = 11 ∨ c = 12)

/-- The Devanagari digit range of the pattern, U+0966 to U+096F. -/
def isDevDigit (c : Nat) : Bool := decide (2406 ≤ c ∧ c ≤ 2415)

/-- The single and double verse-end marks, danda U+0964 and double danda
U+0965, as matched by the character class of `RE_DANDAS`. -/
def isDanda (c : Nat) : Bool := decide (c = 2404 ∨ c = 2405)

/-- The hyphen or en dash alternatives of the locator pattern. -/
def isDashEnDash (c : Nat) : Bool := decide (c = 45 ∨ c = 8211)

/-- Python `str.strip()`: drop whitespace from both ends. -/
def pyStrip (s : PyStr) : PyStr :=
  ((s.dropWhile isPySpace).reverse.dropWhile isPySpace).reverse

/-- Consume a run of whitespace, the backslash-s-star pieces of
`RE_TRAILING_NUM`. -/
def dropWs (s : PyStr) : PyStr := s.dropWhile isPySpace

/-- Consume one mandatory Devanagari digit followed by any further digits,
the digit-plus piece of `RE_TRAILING_NUM`; returns the rest on success. -/
def parseDigits1 : PyStr → Option PyStr
  | c :: rest => if isDevDigit c then some (rest.dropWhile isDevDigit) else none
  | [] => none

/-- Consume one hyphen-or-en-dash-joined digit group of `RE_TRAILING_NUM`;
returns the rest on success. -/
def parseDashGroup : PyStr → Option PyStr
  | c :: rest => if isDashEnDash c then parseDigits1 rest else none
  | [] => none

/-- The final whitespace, double-danda, whitespace, end-of-string piece of
`RE_TRAILING_NUM`, applied to what remains after the digit groups. -/
def tailEnd (r4 : PyStr) : Bool :=
  match dropWs r4 with
  | c2 :: r5 => decide (c2 = 2405) && (dropWs r5).isEmpty
  | [] => false

/-- The part of `RE_TRAILING_NUM` after the first digit group: one or two
further dash-joined digit groups (the `{1,2}` repetition, taken greedily),
then the closing double danda. -/
def afterFirstGroup (r2 : PyStr) : Bool :=
  match parseDashGroup r2 with
  | none => false
  | some r3 => tailEnd ((parseDashGroup r3).getD r3)

/-- Whether `RE_TRAILING_NUM`, the pattern double-danda, whitespace, a
digit group, then one or two further dash-joined digit groups, whitespace,
double-danda, whitespace, end-of-string, matches the whole of `s`.  The
character classes of the pattern (whitespace, Devanagari digits, dashes,
the double danda) are pairwise disjoint, so the backtracking search of the
regex engine is equivalent to this deterministic parse: the greedy
one-or-two repetition commits to a second dash group exactly when one is
present, and no alternative parse can succeed when this one fails. -/
def trailingNumMatch : PyStr → Bool
  | c :: rest =>
    decide (c = 2405) &&
      (match parseDigits1 (dropWs rest) with
       | none => false
       | some r2 => afterFirstGroup r2)
  | [] => false

/-- The effect of `RE_TRAILING_NUM.sub("", line)`: the pattern is anchored
at the end of the line, so the substitution removes the suffix starting at
the leftmost position from which the pattern matches through the end, and
leaves the line unchanged when no such position exists. -/
def stripTrailingNum : PyStr → PyStr
  | [] => []
  | c :: cs => if trailingNumMatch (c :: cs) then [] else c :: stripTrailingNum cs

/-- The effect of `RE_DANDAS.sub("", line)`: remove every danda and double
danda anywhere in the line. -/
def removeDandas (s : PyStr) : PyStr := s.filter (fun c => !(isDanda c))

/-- `clean_shloka_line` of `src/generate_tex.py`: strip a terminal verse
locator, then remove all danda marks, then strip surrounding whitespace. -/
def clean_shloka_line (s : PyStr) : PyStr :=
  pyStrip (removeDandas (stripTrailingNum s))

/-- The character class of lower-case letters and digits, the first group
of the camelCase-splitting pattern of `normalise_slug`. -/
def isLowerDigit (c : Nat) : Bool := decide ((97 ≤ c ∧ c ≤ 122) ∨ (48 ≤ c ∧ c ≤ 57))

/-- The character class of upper-case ASCII letters, the second group of
the camelCase-splitting pattern. -/
def isAsciiUpper (c : Nat) : Bool := decide (65 ≤ c ∧ c ≤ 90)

/-- The ASCII alphanumeric class of the second pattern of `normalise_slug`. -/
def isAsciiAlnum (c : Nat) : Bool :=
  decide ((48 ≤ c ∧ c ≤ 57) ∨ (97 ≤ c ∧ c ≤ 122) ∨ (65 ≤ c ∧ c ≤ 90))

/-- One pass of the camelCase substitution of `normalise_slug`: wherever a
lower-case-or-digit character is immediately followed by an upper-case one,
a hyphen (code 45) is inserted between them; both matched characters are
consumed (matches do not overlap), so scanning resumes after the pair. -/
def camelSplit : List Nat → List Nat
  | c1 :: c2 :: rest =>
    if isLowerDigit c1 && isAsciiUpper c2 then c1 :: 45 :: c2 :: camelSplit rest
    else c1 :: camelSplit (c2 :: rest)
  | l => l

/-- The second substitution of `normalise_slug`: replace every maximal run
of non-alphanumeric characters by a single hyphen.  The Boolean argument
records whether the previous character belonged to such a run. -/
def dashifyAux : Bool → List Nat → List Nat
  | _, [] => []
  | prevNon, c :: rest =>
    if isAsciiAlnum c then c :: dashifyAux false rest
    else if prevNon then dashifyAux true rest
    else 45 :: dashifyAux true rest

/-- Replace every maximal non-alphanumeric run by one hyphen. -/
def dashify (s : List Nat) : List Nat := dashifyAux false s

/-- Python `str.strip("-")`: drop hyphens from both ends. -/
def stripDashes (s : List Nat) : List Nat :=
  ((s.dropWhile (fun c => decide (c = 45))).reverse.dropWhile
    (fun c => decide (c = 45))).reverse

/-- Python `str.lower()` on one code point, restricted to ASCII.  Inside
`normalise_slug` the lowering runs last, after every character outside the
ASCII alphanumerics and the hyphen has been replaced, so the ASCII case
conversion is exact there. -/
def pyCharLower (c : Nat) : Nat := if isAsciiUpper c then c + 32 else c

/-- Python `str.lower()` on a string, restricted to ASCII. -/
def pyLower (s : PyStr) : PyStr := s.map pyCharLower

/-- `normalise_slug` of `scripts/generate_tex.py`: insert hyphens at
camelCase boundaries, replace non-alphanumeric runs by hyphens, strip
hyphens from both ends, and lower-case the result. -/
def normalise_slug (s : PyStr) : PyStr :=
  pyLower (stripDashes (dashify (camelSplit s)))

/-- The ASCII decimal digit class. -/
def isAsciiDigit (c : Nat) : Bool := decide (48 ≤ c ∧ c ≤ 57)

/-- The digits of a natural number accumulated from the right, as the
decimal `str` of a Python `int` produces them.  The first argument is
fuel, kept structural so that the kernel can evaluate the definition; a
fuel of `n` always suffices because the value shrinks by a factor of ten
each step, and on exhaustion (reachable only at value zero) the remaining
single digit is emitted, so the fuel never changes the result. -/
def natDigitsAux : Nat → Nat → PyStr → PyStr
  | 0, n, acc => (48 + n) :: acc
  | fuel + 1, n, acc =>
    if n < 10 then (48 + n) :: acc
    else natDigitsAux fuel (n / 10) ((48 + n % 10) :: acc)

/-- The decimal digits of a natural number. -/
def natDigits (n : Nat) : PyStr := natDigitsAux n n []

/-- Python `str` of an `int`. -/
def intToStr (n : Int) : PyStr :=
  if n < 0 then 45 :: natDigits n.natAbs else natDigits n.toNat

/-- The value of a non-empty all-digit string, `none` otherwise. -/
def decDigitsVal (l : PyStr) : Option Nat :=
  if l = [] then none
  else if l.all (fun c => isAsciiDigit c) then
    some (l.foldl (fun a c => a * 10 + (c - 48)) 0)
  else none

/-- Python `int(s)` for a decimal literal: surrounding whitespace, an
optional sign, then at least one digit; anything else raises `ValueError`,
modelled as `none`.  (CPython also accepts non-ASCII decimal digits and
underscore separators; the data in scope uses plain ASCII decimals.) -/
def pyInt (s : PyStr) : Option Int :=
  match pyStrip s with
  | 45 :: rest => (decDigitsVal rest).map (fun n => -(n : Int))
  | 43 :: rest => (decDigitsVal rest).map (fun n => (n : Int))
  | l => (decDigitsVal l).map (fun n => (n : Int))

/-- The JSON documents the scripts consume.  The numbers in the data files
in scope are integers, and a parsed object keeps its fields in document
order with distinct keys, as `json.loads` produces. -/
inductive Json where
  | null
  | bool (b : Bool)
  | num (n : Int)
  | str (s : PyStr)
  | arr (items : List Json)
  | obj (fields : List (PyStr × Json))

/-- Python `str(value)` for the values reaching it here.  For a list or a
mapping only the fact that the result is not a decimal literal matters to
the callers in scope, so a bracket marker stands in for the full repr. -/
def pyStr : Json → PyStr
  | .null => codes "None"
  | .bool true => codes "True"
  | .bool false => codes "False"
  | .num n => intToStr n
  | .str s => s
  | .arr _ => codes "[...]"
  | .obj _ => codes "\x7b...\x7d"

/-- Indexing a parsed object by key: the binding of the key, `None` when
absent (keys of a parsed object are distinct). -/
def objGet (fields : List (PyStr × Json)) (k : PyStr) : Option Json :=
  (fields.find? (fun p => decide (p.1 = k))).map (fun p => p.2)

/-- Lookup through `lower_key_map`, the comprehension mapping each
lower-cased key to the original key: a later key with the same lower-cased
form overwrites an earlier one, so the last such key is found. -/
def lowerKeyGet (fields : List (PyStr × Json)) (lk : PyStr) : Option PyStr :=
  (fields.reverse.find? (fun p => decide (pyLower p.1 = lk))).map (fun p => p.1)

/-- The lookup tables of `TitleIndex`, as association lists in insertion
order. -/
structure TitleIndex where
  by_slug : List (PyStr × PyStr)
  by_numbers : List ((Int × Int) × PyStr)

/-- `dict.setdefault` on `by_slug`: keep an existing binding, else append. -/
def setdefaultSlug (t : TitleIndex) (k v : PyStr) : TitleIndex :=
  if (t.by_slug.find? (fun p => decide (p.1 = k))).isSome then t
  else { t with by_slug := t.by_slug ++ [(k, v)] }

/-- `dict.setdefault` on `by_numbers`. -/
def setdefaultNum (t : TitleIndex) (k : Int × Int) (v : PyStr) : TitleIndex :=
  if (t.by_numbers.find? (fun p => decide (p.1 = k))).isSome then t
  else { t with by_numbers := t.by_numbers ++ [(k, v)] }

/-- Lookup in `by_slug`. -/
def findSlug (t : TitleIndex) (k : PyStr) : Option PyStr :=
  (t.by_slug.find? (fun p => decide (p.1 = k))).map (fun p => p.2)

/-- Lookup in `by_numbers`. -/
def findNum (t : TitleIndex) (k : Int × Int) : Option PyStr :=
  (t.by_numbers.find? (fun p => decide (p.1 = k))).map (fun p => p.2)

/-- The candidate key names `_extract_int` tries for a kanda number. -/
def KANDA_KEYS : List PyStr :=
  [codes "kanda_number", codes "kanda", codes "book_number", codes "book",
   codes "kanda_no", codes "kandaid"]

/-- The candidate key names `_extract_int` tries for a sarga number. -/
def SARGA_KEYS : List PyStr :=
  [codes "sarga_number", codes "sarga", codes "chapter_number", codes "chapter",
   codes "adhyaya", codes "chapterid"]

/-- The candidate key names of the slug loop of `_scan`. -/
def SLUG_KEYS : List PyStr :=
  [codes "slug", codes "chapter_slug", codes "sarga_slug", codes "id",
   codes "identifier"]

/-- The candidate key names of the title loop of `_scan`. -/
def TITLE_KEYS : List PyStr :=
  [codes "title", codes "chapter_title", codes "name", codes "heading"]

/-- The nested `_extract_int` of `TitleIndex._scan`: try each candidate
name against `lower_key_map`; on a hit attempt `int(str(raw).strip())` and
fall through to the next candidate when the conversion fails. -/
def extractIntFrom (fields : List (PyStr × Json)) : List PyStr → Option Int
  | [] => none
  | cand :: rest =>
    match lowerKeyGet fields cand with
    | none => extractIntFrom fields rest
    | some key =>
      match objGet fields key with
      | none => extractIntFrom fields rest
      | some raw =>
        match pyInt (pyStrip (pyStr raw)) with
        | some n => some n
        | none => extractIntFrom fields rest

/-- The slug and title loops of `_scan`: try candidate names through
`lower_key_map`, accept the first whose value is a string with non-blank
content, and return `f` of the raw value. -/
def extractStrField (fields : List (PyStr × Json)) (f : PyStr → PyStr) :
    List PyStr → Option PyStr
  | [] => none
  | cand :: rest =>
    match lowerKeyGet fields cand with
    | none => extractStrField fields f rest
    | some key =>
      match objGet fields key with
      | some (.str s) =>
        if pyStrip s ≠ [] then some (f s) else extractStrField fields f rest
      | _ => extractStrField fields f rest

/-- The per-node work of `TitleIndex._scan` on a mapping node: resolve the
kanda number (falling back to the inherited one), the sarga number, the
normalised slug and the stripped title, and register a found (truthy)
title under the slug key (when the slug is truthy) and under the numeric
key (when both numbers are present) with `setdefault`.  Returns the
resolved kanda number, passed down to descendants, and the updated
index. -/
def registerNode (fields : List (PyStr × Json)) (inherited : Option Int)
    (t : TitleIndex) : Option Int × TitleIndex :=
  let kanda := match extractIntFrom fields KANDA_KEYS with
    | some n => some n
    | none => inherited
  let sarga := extractIntFrom fields SARGA_KEYS
  let slug := extractStrField fields normalise_slug SLUG_KEYS
  let title := extractStrField fields pyStrip TITLE_KEYS
  let t1 := match title with
    | none => t
    | some tv =>
      if tv ≠ [] then
        let ta := match slug with
          | some sv => if sv ≠ [] then setdefaultSlug t sv tv else t
          | none => t
        match kanda, sarga with
        | some k, some s => setdefaultNum ta (k, s) tv
        | _, _ => ta
      else t
  (kanda, t1)

mutual
/-- `TitleIndex._scan`: traverse the metadata tree; at each mapping node
register via `registerNode`, then recurse into the list- and mapping-valued
fields passing the resolved kanda number down as the inherited default. -/
def scan (j : Json) (inherited : Option Int) (t : TitleIndex) : TitleIndex :=
  match j with
  | .arr items => scanList items inherited t
  | .obj fields =>
    scanFields fields (registerNode fields inherited t).1 (registerNode fields inherited t).2
  | _ => t
/-- The scan of a list node: scan the items left to right. -/
def scanList (items : List Json) (inherited : Option Int) (t : TitleIndex) :
    TitleIndex :=
  match items with
  | [] => t
  | j :: rest => scanList rest inherited (scan j inherited t)
/-- The recursion of `_scan` into the list- and mapping-valued fields of a
mapping node, in field order. -/
def scanFields (fields : List (PyStr × Json)) (inherited : Option Int)
    (t : TitleIndex) : TitleIndex :=
  match fields with
  | [] => t
  | (_, v) :: rest =>
    match v with
    | .arr _ => scanFields rest inherited (scan v inherited t)
    | .obj _ => scanFields rest inherited (scan v inherited t)
    | _ => scanFields rest inherited t
end

/-- `TitleIndex.get`: normalise the slug, prefer `by_slug`, fall back to
the numeric key. -/
def TitleIndex.get (t : TitleIndex) (slug : PyStr) (kanda sarga : Int) :
    Option PyStr :=
  match findSlug t (normalise_slug slug) with
  | some v => some v
  | none => findNum t (kanda, sarga)

/-- `TitleIndex.from_map_file`, with the file system supplied as data:
`none` when the map file does not exist, `some (.error e)` when it exists
but `json.loads` fails with message `e`, and `some (.ok payload)` when it
parses.  A missing file yields the empty index with a warning; a parse
failure raises `SystemExit`, modelled as the `.error` case. -/
def from_map_file (file : Option (Except PyStr Json)) : Except PyStr TitleIndex :=
  match file with
  | none => .ok ⟨[], []⟩
  | some (.error e) => .error (codes "Unable to parse map file: " ++ e)
  | some (.ok payload) => .ok (scan payload none ⟨[], []⟩)

/-- The candidate field names for verse text, tried in order with exact,
case-sensitive containment (`if key in shloka`). -/
def CANDIDATE_TEXT_KEYS : List PyStr :=
  [codes "text", codes "lines", codes "text_lines", codes "shloka",
   codes "sloka", codes "content", codes "values"]

/-- The candidate field names for a verse number, matched through the
lower-cased key map. -/
def CANDIDATE_NUMBER_KEYS : List PyStr :=
  [codes "number", codes "shloka_number", codes "shloka_no",
   codes "sloka_number", codes "sloka_no", codes "verse_number", codes "verse",
   codes "id", codes "identifier", codes "index"]

/-- The maximal runs of decimal digits of a string, as the digit findall of
`_coerce_int` produces them (restricted to ASCII digits); `cur` holds the
run in progress, reversed. -/
def digitRunsAux (cur : PyStr) : PyStr → List PyStr
  | [] => if cur = [] then [] else [cur.reverse]
  | c :: rest =>
    if isAsciiDigit c then digitRunsAux (c :: cur) rest
    else if cur = [] then digitRunsAux [] rest
    else cur.reverse :: digitRunsAux [] rest

/-- The maximal runs of decimal digits of a string. -/
def digitRuns (s : PyStr) : List PyStr := digitRunsAux [] s

/-- `_coerce_int`: booleans are rejected, integers pass through, and a
string yields the integer value of its last run of digits.  (The float
branch of the source cannot arise here: the JSON numbers in scope are
integers.) -/
def coerce_int : Json → Option Int
  | .bool _ => none
  | .num n => some n
  | .str s =>
    match (digitRuns s).getLast? with
    | some r => (decDigitsVal r).map (fun n => (n : Int))
    | none => none
  | _ => none

/-- The candidate-key loop of `extract_shloka_number`: each candidate is
looked up through the lower-cased key map, and a value the coercion
rejects falls through to the next candidate. -/
def numberFromKeys (fields : List (PyStr × Json)) : List PyStr → Option Int
  | [] => none
  | cand :: rest =>
    match lowerKeyGet fields cand with
    | none => numberFromKeys fields rest
    | some key =>
      match objGet fields key with
      | none => numberFromKeys fields rest
      | some v =>
        match coerce_int v with
        | some n => some n
        | none => numberFromKeys fields rest

mutual
/-- `extract_shloka_number`: try the candidate number keys through the
lower-cased key map, then recurse depth-first into mapping-valued fields,
first success winning.  A non-mapping input yields nothing. -/
def extract_shloka_number (j : Json) : Option Int :=
  match j with
  | .obj fields =>
    match numberFromKeys fields CANDIDATE_NUMBER_KEYS with
    | some n => some n
    | none => numberFromValues fields
  | _ => none
/-- The recursion of `extract_shloka_number` into mapping-valued fields. -/
def numberFromValues (fields : List (PyStr × Json)) : Option Int :=
  match fields with
  | [] => none
  | (_, v) :: rest =>
    match v with
    | .obj _ =>
      match extract_shloka_number v with
      | some n => some n
      | none => numberFromValues rest
    | _ => numberFromValues rest
end

/-- Python `str.splitlines` for the line breaks in scope, splitting at the
newline character; a carriage return left at the end of a piece is removed
by the subsequent strip. -/
def pySplitlines (s : PyStr) : List PyStr := s.splitOn 10

/-- The comprehension stripping each piece and dropping blank ones. -/
def strip_lines (ls : List PyStr) : List PyStr :=
  (ls.map pyStrip).filter (fun x => decide (x ≠ []))

/-- The list branch of `extract_shloka_lines`: stringify each element,
strip it, and drop blank results. -/
def stringified_items (items : List Json) : List PyStr :=
  (items.map (fun it => pyStrip (pyStr it))).filter (fun x => decide (x ≠ []))

/-- Whether the lower-cased key ends in the `_sanskrit` suffix. -/
def endsWithSanskrit (k : PyStr) : Bool := (codes "_sanskrit").isSuffixOf (pyLower k)

/-- Whether a value is a string or a list, the fallback condition of
`extract_shloka_lines`. -/
def isStrOrList : Json → Bool
  | .str _ => true
  | .arr _ => true
  | _ => false

/-- The `for ... else` fallback of `extract_shloka_lines`: the first field
whose lower-cased name ends in `_sanskrit` and whose value is a string or
a list. -/
def sanskritFallback : List (PyStr × Json) → Option Json
  | [] => none
  | (k, v) :: rest =>
    if endsWithSanskrit k && isStrOrList v then some v
    else sanskritFallback rest

/-- The candidate-key loop of `extract_shloka_lines`: the first candidate
key present in the mapping (by exact, case-sensitive comparison) selects
its value, whatever its type. -/
def firstTextValue (fields : List (PyStr × Json)) : List PyStr → Option Json
  | [] => none
  | k :: rest =>
    match objGet fields k with
    | some v => some v
    | none => firstTextValue fields rest

/-- Lines from a selected field value: a string is split on line breaks, a
list has its elements stringified; any other type yields no lines (a
mapping is not a Python `Sequence`, so the trailing sequence branch of the
source never applies to it). -/
def linesOfValue : Json → List PyStr
  | .str s => strip_lines (pySplitlines s)
  | .arr items => stringified_items items
  | _ => []

/-- `extract_shloka_lines`. -/
def extract_shloka_lines (j : Json) : List PyStr :=
  match j with
  | .str s => strip_lines (pySplitlines s)
  | .obj fields =>
    match firstTextValue fields CANDIDATE_TEXT_KEYS with
    | some v => linesOfValue v
    | none =>
      match sanskritFallback fields with
      | some v => linesOfValue v
      | none => []
  | .arr items => stringified_items items
  | _ => []

/-- The container of lines and the optional number of one verse. -/
structure ShlokaEntry where
  lines : List PyStr
  number : Option Int

/-- `extract_shloka_entry`. -/
def extract_shloka_entry (j : Json) : ShlokaEntry :=
  ⟨extract_shloka_lines j, extract_shloka_number j⟩

/-- The wrapper keys `find_shlokas` tries on a mapping document. -/
def WRAPPER_KEYS : List PyStr :=
  [codes "shlokas", codes "slokas", codes "verses", codes "data",
   codes "items", codes "content"]

/-- The wrapper-key loop of `find_shlokas`: the first key present whose
value is a list. -/
def firstListValue (fields : List (PyStr × Json)) : List PyStr → Option (List Json)
  | [] => none
  | k :: rest =>
    match objGet fields k with
    | some (.arr items) => some items
    | _ => firstListValue fields rest

/-- Whether a mapping value is treated as a verse-like entry by the
fallback of `find_shlokas`. -/
def isEntryCandidate : Json → Bool
  | .arr _ => true
  | .obj _ => true
  | .str _ => true
  | _ => false

/-- `find_shlokas`. -/
def find_shlokas : Json → List ShlokaEntry
  | .arr items => items.map extract_shloka_entry
  | .obj fields =>
    match firstListValue fields WRAPPER_KEYS with
    | some items => items.map extract_shloka_entry
    | none => ((fields.map (fun p => p.2)).filter isEntryCandidate).map extract_shloka_entry
  | _ => []

/-- The `TEX_SPECIAL_CHARS` substitution table, keyed by code point:
ampersand, percent, dollar, hash, underscore, opening and closing brace,
tilde, caret. -/
def TEX_SPECIAL_CHARS : List (Nat × PyStr) :=
  [(38, codes "\\&"), (37, codes "\\%"), (36, codes "\\$"), (35, codes "\\#"),
   (95, codes "\\_"), (123, codes "\\\x7b"), (125, codes "\\\x7d"),
   (126, codes "\\textasciitilde\x7b\x7d"), (94, codes "\\textasciicircum\x7b\x7d")]

/-- `tex_escape`: map each character through the substitution table,
leaving characters outside it unchanged, and join the pieces. -/
def tex_escape (s : PyStr) : PyStr :=
  (s.map (fun c =>
    match (TEX_SPECIAL_CHARS.find? (fun p => decide (p.1 = c))).map (fun p => p.2) with
    | some r => r
    | none => [c])).flatten

/-- `MACRO_BY_LINE_COUNT`. -/
def MACRO_BY_LINE_COUNT : Nat → Option PyStr
  | 1 => some (codes "onelineshloka")
  | 2 => some (codes "twolineshloka")
  | 3 => some (codes "threelineshloka")
  | _ => none

/-- The segment size chosen for `remaining` lines: the exact count when a
macro for it exists, else two lines while more than three remain. -/
def segSize (remaining : Nat) : Nat :=
  if (MACRO_BY_LINE_COUNT remaining).isSome then remaining
  else if remaining > 3 then 2
  else remaining

/-- `build_macro_segments`: greedily slice macro-sized segments off the
front of the line list.  The defensive branch of the source for a size
without a macro is kept although it is unreachable (the chosen size is
always 1, 2 or 3): it emits a two-line macro over `min 2 remaining` lines,
or one line when that minimum is zero. -/
def build_macro_segments (lines : List PyStr) : List (PyStr × List PyStr) :=
  if h : lines = [] then []
  else
    let size := segSize lines.length
    match MACRO_BY_LINE_COUNT size with
    | some name => (name, lines.take size) :: build_macro_segments (lines.drop size)
    | none =>
      let size2 := if min 2 lines.length = 0 then 1 else min 2 lines.length
      (codes "twolineshloka", lines.take size2) ::
        build_macro_segments (lines.drop size2)
  termination_by lines.length
  decreasing_by
  · have hl : 0 < lines.length := List.length_pos.mpr h
    have hs : 0 < segSize lines.length := by
      unfold segSize
      split
      · exact hl
      · split
        · omega
        · exact hl
    simp only [List.length_drop]
    omega
  · have hl : 0 < lines.length := List.length_pos.mpr h
    simp only [List.length_drop]
    split
    · omega
    · rename_i hmin
      omega

/-- Left-pad with zero characters to width `w`, for the `{:03d}` format. -/
def zfill (w : Nat) (s : PyStr) : PyStr := List.replicate (w - s.length) 48 ++ s

/-- Python `f"{n:03d}"`: the sign counts toward the width and the zeros
follow it. -/
def pyFormat03 (n : Int) : PyStr :=
  if n < 0 then 45 :: zfill 2 (natDigits n.natAbs) else zfill 3 (natDigits n.toNat)

/-- The composite identifier of the assembler,
`f"{kanda_number}-{sarga_number:03d}-{shloka_number:03d}"`. -/
def verse_identifier (kanda sarga shno : Int) : PyStr :=
  intToStr kanda ++ (45 :: pyFormat03 sarga) ++ (45 :: pyFormat03 shno)

/-- The truthiness test `if comment` on an optional string. -/
def pyTruthyOptStr : Option PyStr → Bool
  | some s => decide (s ≠ [])
  | none => false

/-- The list of lines `format_shloka_macro` joins: the macro invocation,
then one brace-wrapped escaped line per input line, the line numbered
`len(lines)` carrying the comment suffix when a truthy comment is given. -/
def format_shloka_macro_body (name : PyStr) (lines : List PyStr)
    (comment : Option PyStr) : List PyStr :=
  (92 :: name) :: lines.enum.map (fun p =>
    (123 :: (tex_escape p.2 ++ [125])) ++
      (if pyTruthyOptStr comment && decide (p.1 + 1 = lines.length) then
        32 :: (37 :: comment.getD []) else []))

/-- Python `"sep".join(pieces)`. -/
def pyJoin (sep : PyStr) : List PyStr → PyStr
  | [] => []
  | [x] => x
  | x :: xs => x ++ sep ++ pyJoin sep xs

/-- `format_shloka_macro`: the body joined by newlines. -/
def format_shloka_macro_str (name : PyStr) (lines : List PyStr)
    (comment : Option PyStr) : PyStr :=
  pyJoin [10] (format_shloka_macro_body name lines comment)

/-- `entry.number if entry.number is not None else entry_index`. -/
def shloka_number (entry_index : Int) (entry : ShlokaEntry) : Int :=
  entry.number.getD entry_index

/-- The per-segment comments of the assembler loop: the identifier goes to
the segment numbered `len(segments)`, `None` to every other one. -/
def segment_renders (ident : PyStr) (segs : List (PyStr × List PyStr)) :
    List (PyStr × List PyStr × Option PyStr) :=
  segs.enum.map (fun p =>
    (p.2.1, p.2.2, if p.1 + 1 = segs.length then some ident else none))

/-- The flat list of body lines one verse contributes across its
segments. -/
def verse_body_lines (kanda sarga : Int) (entry_index : Int)
    (entry : ShlokaEntry) : List PyStr :=
  ((segment_renders (verse_identifier kanda sarga (shloka_number entry_index entry))
    (build_macro_segments entry.lines)).map
      (fun r => format_shloka_macro_body r.1 r.2.1 r.2.2)).flatten

/-- The blocks the assembler appends for one verse: each formatted segment
followed by a blank line. -/
def verse_tex_blocks (kanda sarga : Int) (entry_index : Int)
    (entry : ShlokaEntry) : List PyStr :=
  ((segment_renders (verse_identifier kanda sarga (shloka_number entry_index entry))
    (build_macro_segments entry.lines)).map
      (fun r => [format_shloka_macro_str r.1 r.2.1 r.2.2, []])).flatten

/-- Python `str.rstrip()`. -/
def pyRStrip (s : PyStr) : PyStr := (s.reverse.dropWhile isPySpace).reverse

/-- The lines `generate_tex_content` accumulates: the provenance comment,
the timestamp comment (the timestamp supplied as data), the chapter line
or the missing-title placeholder, a blank line, then for each entry with a
non-empty line list (enumerated from one over the given list) its verse
blocks. -/
def generate_tex_lines (srcPath ts : PyStr) (shlokas : List ShlokaEntry)
    (kanda sarga : Int) (tix : TitleIndex) (kandaSlug : PyStr) : List PyStr :=
  let slug := kandaSlug ++ codes "-sarga-" ++ pyFormat03 sarga
  let title := tix.get slug kanda sarga
  (codes "% Auto-generated from " ++ srcPath) ::
  (codes "% Generated on " ++ ts ++ codes "Z") ::
  (match title with
   | some t => codes "\\chapter\x7b" ++ tex_escape t ++ codes "\x7d"
   | none => codes "% Title not available for " ++ slug) ::
  [] ::
  (shlokas.enum.map (fun p =>
    if p.2.lines = [] then []
    else verse_tex_blocks kanda sarga (Int.ofNat (p.1 + 1)) p.2)).flatten

/-- `generate_tex_content`: the lines joined by newlines, right-stripped,
with one final newline. -/
def generate_tex_content (srcPath ts : PyStr) (shlokas : List ShlokaEntry)
    (kanda sarga : Int) (tix : TitleIndex) (kandaSlug : PyStr) : PyStr :=
  pyRStrip (pyJoin [10] (generate_tex_lines srcPath ts shlokas kanda sarga tix kandaSlug))
    ++ [10]

/-- One discovered input file, with the outcomes of its file-system and
parsing steps supplied as data: the source path, the `json.loads` result
(or the message of the `SystemExit` it raises), the kanda metadata and the
sarga number derived from the path (or their `SystemExit` messages), and
whether the output file already exists. -/
structure InputFile where
  path : PyStr
  parse : Except PyStr Json
  meta : Except PyStr (Int × PyStr × PyStr)
  sargaNum : Except PyStr Int
  outputExists : Bool

/-- `process_file`: `none` when no usable shloka data is found; otherwise
the output path paired with the written content, or with `none` for the
skip case (the output exists and overwriting is off).  A raised
`SystemExit` is the `Except.error` case. -/
def process_file (tix : TitleIndex) (overwrite : Bool) (ts : PyStr)
    (f : InputFile) : Except PyStr (Option (PyStr × Option PyStr)) := do
  let data ← f.parse
  let shlokas := (find_shlokas data).filter (fun e => decide (e.lines ≠ []))
  if shlokas.isEmpty then return none
  let m ← f.meta
  let sarga ← f.sargaNum
  let outPath := m.2.2 ++ (47 :: m.2.1) ++ codes "-sarga-" ++ pyFormat03 sarga
    ++ codes ".tex"
  if f.outputExists && !overwrite then return some (outPath, none)
  return some (outPath, some (generate_tex_content f.path ts shlokas m.1 sarga tix m.2.1))

/-- The loop of `run`: thread the processed count and the performed
actions (output path with the written content, or `none` for a skip); a
raised `SystemExit` aborts the loop, keeping the actions already
performed. -/
def runAux (tix : TitleIndex) (overwrite : Bool) (ts : PyStr) :
    List InputFile → Nat → List (PyStr × Option PyStr) →
    (List (PyStr × Option PyStr)) × Except PyStr Nat
  | [], n, acc => (acc, .ok n)
  | f :: rest, n, acc =>
    match process_file tix overwrite ts f with
    | .error e => (acc, .error e)
    | .ok none => runAux tix overwrite ts rest n acc
    | .ok (some act) => runAux tix overwrite ts rest (n + 1) (acc ++ [act])

/-- `run`: process the discovered files in order, counting the files for
which `process_file` returned a path. -/
def run (tix : TitleIndex) (overwrite : Bool) (ts : PyStr)
    (files : List InputFile) : (List (PyStr × Option PyStr)) × Except PyStr Nat :=
  runAux tix overwrite ts files 0 []

/-- The exit status of `main` for a given title index: zero when the
processed count is non-zero, one otherwise, and one for an uncaught
`SystemExit` carrying a message. -/
def main_exit (tix : TitleIndex) (overwrite : Bool) (ts : PyStr)
    (files : List InputFile) : Nat :=
  match (run tix overwrite ts files).2 with
  | .ok n => if n ≠ 0 then 0 else 1
  | .error _ => 1

/-- The exit status of the whole program, the map file included: a map
file that exists but fails to parse raises `SystemExit` before any file is
processed. -/
def full_main_exit (mapFile : Option (Except PyStr Json)) (overwrite : Bool)
    (ts : PyStr) (files : List InputFile) : Nat :=
  match from_map_file mapFile with
  | .error _ => 1
  | .ok tix => main_exit tix overwrite ts files

/-- The writes a run performs: the actions that carry content. -/
def writesOf (acts : List (PyStr × Option PyStr)) : List (PyStr × PyStr) :=
  acts.filterMap (fun a => a.2.map (fun c => (a.1, c)))

/-- Modelled from the wording of the specification, for comparison with
the table of the source: the substitution the spec describes, character by
character — ampersand, percent, dollar, hash, underscore, opening brace,
closing brace, tilde, caret map to their escaped or macro forms, and every
other character maps to itself. -/
def spec_escaped_form (c : Nat) : PyStr :=
  if c = 38 then codes "\\&"
  else if c = 37 then codes "\\%"
  else if c = 36 then codes "\\$"
  else if c = 35 then codes "\\#"
  else if c = 95 then codes "\\_"
  else if c = 123 then codes "\\\x7b"
  else if c = 125 then codes "\\\x7d"
  else if c = 126 then codes "\\textasciitilde\x7b\x7d"
  else if c = 94 then codes "\\textasciicircum\x7b\x7d"
  else [c]

theorem devDigit_bounds {c : Nat} (h : isDevDigit c = true) : 2406 ≤ c ∧ c ≤ 2415 := by
  simpa [isDevDigit] using h

theorem devDigit_not_space {c : Nat} (h : isDevDigit c = true) : isPySpace c = false := by
  have := devDigit_bounds h
  simp only [isPySpace, decide_eq_false_iff_not]
  omega

theorem devDigit_ne_danda2 {c : Nat} (h : isDevDigit c = true) : c ≠ 2405 := by
  have := devDigit_bounds h
  omega

theorem devDigit_not_danda {c : Nat} (h : isDevDigit c = true) : isDanda c = false := by
  have := devDigit_bounds h
  simp only [isDanda, decide_eq_false_iff_not]
  omega

theorem dash_bounds {c : Nat} (h : isDashEnDash c = true) : c = 45 ∨ c = 8211 := by
  simpa [isDashEnDash] using h

theorem dash_not_devDigit {c : Nat} (h : isDashEnDash c = true) : isDevDigit c = false := by
  rcases dash_bounds h with rfl | rfl <;> decide

theorem dropWhile_append_all {p : Nat → Bool} (t r : PyStr) (h : ∀ c ∈ t, p c = true) :
    (t ++ r).dropWhile p = r.dropWhile p := by
  induction t with
  | nil => rfl
  | cons a t ih =>
    have ha := h a (by simp)
    simp only [List.cons_append, List.dropWhile_cons, ha, if_true]
    exact ih (fun c hc => h c (by simp [hc]))

theorem parseDigits1_group (g : PyStr) (c : Nat) (r : PyStr)
    (hg : g ≠ []) (hgd : ∀ x ∈ g, isDevDigit x = true) (hc : isDevDigit c = false) :
    parseDigits1 (g ++ (c :: r)) = some (c :: r) := by
  obtain ⟨a, t, rfl⟩ := List.exists_cons_of_ne_nil hg
  have ha := hgd a (by simp)
  simp only [List.cons_append, parseDigits1, ha, if_true]
  rw [dropWhile_append_all t (c :: r) (fun x hx => hgd x (by simp [hx]))]
  simp [List.dropWhile_cons, hc]

theorem dropWs_digits (g : PyStr) (r : PyStr)
    (hg : g ≠ []) (hgd : ∀ x ∈ g, isDevDigit x = true) :
    dropWs (g ++ r) = g ++ r := by
  obtain ⟨a, t, rfl⟩ := List.exists_cons_of_ne_nil hg
  have := devDigit_not_space (hgd a (by simp))
  simp [dropWs, List.dropWhile_cons, this]

theorem trailingNumMatch_two_groups (dsh : Nat) (g1 g2 : PyStr)
    (hdsh : isDashEnDash dsh = true)
    (hg1 : g1 ≠ []) (hg1d : ∀ c ∈ g1, isDevDigit c = true)
    (hg2 : g2 ≠ []) (hg2d : ∀ c ∈ g2, isDevDigit c = true) :
    trailingNumMatch (2405 :: (g1 ++ (dsh :: (g2 ++ [2405])))) = true := by
  have e0 := dropWs_digits g1 (dsh :: (g2 ++ [2405])) hg1 hg1d
  have e1 := parseDigits1_group g1 dsh (g2 ++ [2405]) hg1 hg1d (dash_not_devDigit hdsh)
  have e2 := parseDigits1_group g2 2405 [] hg2 hg2d (by decide)
  have e3 : parseDashGroup (dsh :: (g2 ++ [2405])) = some [2405] := by
    simp only [parseDashGroup, hdsh, if_true]
    exact e2
  simp only [trailingNumMatch, e0, e1, afterFirstGroup, e3]
  decide

theorem trailingNumMatch_three_groups (dsh dsh2 : Nat) (g1 g2 g3 : PyStr)
    (hdsh : isDashEnDash dsh = true) (hdsh2 : isDashEnDash dsh2 = true)
    (hg1 : g1 ≠ []) (hg1d : ∀ c ∈ g1, isDevDigit c = true)
    (hg2 : g2 ≠ []) (hg2d : ∀ c ∈ g2, isDevDigit c = true)
    (hg3 : g3 ≠ []) (hg3d : ∀ c ∈ g3, isDevDigit c = true) :
    trailingNumMatch (2405 :: (g1 ++ (dsh :: (g2 ++ (dsh2 :: (g3 ++ [2405])))))) = true := by
  have e0 := dropWs_digits g1 (dsh :: (g2 ++ (dsh2 :: (g3 ++ [2405])))) hg1 hg1d
  have e1 := parseDigits1_group g1 dsh (g2 ++ (dsh2 :: (g3 ++ [2405]))) hg1 hg1d
    (dash_not_devDigit hdsh)
  have e2 := parseDigits1_group g2 dsh2 (g3 ++ [2405]) hg2 hg2d (dash_not_devDigit hdsh2)
  have e3 : parseDashGroup (dsh :: (g2 ++ (dsh2 :: (g3 ++ [2405]))))
      = some (dsh2 :: (g3 ++ [2405])) := by
    simp only [parseDashGroup, hdsh, if_true]
    exact e2
  have e4 := parseDigits1_group g3 2405 [] hg3 hg3d (by decide)
  have e5 : parseDashGroup (dsh2 :: (g3 ++ [2405])) = some [2405] := by
    simp only [parseDashGroup, hdsh2, if_true]
    exact e4
  simp only [trailingNumMatch, e0, e1, afterFirstGroup, e3, e5, Option.getD_some]
  decide

theorem trailingNumMatch_one_group (g : PyStr)
    (hg : g ≠ []) (hgd : ∀ c ∈ g, isDevDigit c = true) :
    trailingNumMatch (2405 :: (g ++ [2405])) = false := by
  have e0 : dropWs (g ++ [2405]) = g ++ [2405] := dropWs_digits g [2405] hg hgd
  have e1 := parseDigits1_group g 2405 [] hg hgd (by decide)
  simp only [trailingNumMatch, e0, e1, afterFirstGroup]
  decide

theorem trailingNumMatch_cons_ne {a : Nat} (rest : PyStr) (ha : a ≠ 2405) :
    trailingNumMatch (a :: rest) = false := by
  simp [trailingNumMatch, ha]

theorem stripTrailingNum_append_of_match (p s : PyStr)
    (hp : ∀ c ∈ p, c ≠ 2405) (hs : trailingNumMatch s = true) :
    stripTrailingNum (p ++ s) = p := by
  induction p with
  | nil =>
    cases s with
    | nil => simp [trailingNumMatch] at hs
    | cons c cs => simp [stripTrailingNum, hs]
  | cons a p ih =>
    have ha : a ≠ 2405 := hp a (by simp)
    have hm := trailingNumMatch_cons_ne (p ++ s) ha
    rw [List.cons_append, stripTrailingNum, hm]
    simp only [Bool.false_eq_true, if_false, List.cons.injEq, true_and]
    exact ih (fun c hc => hp c (by simp [hc]))

theorem stripTrailingNum_append_of_id (p s : PyStr)
    (hp : ∀ c ∈ p, c ≠ 2405) (hs : stripTrailingNum s = s) :
    stripTrailingNum (p ++ s) = p ++ s := by
  induction p with
  | nil => simpa using hs
  | cons a p ih =>
    have ha : a ≠ 2405 := hp a (by simp)
    have hm := trailingNumMatch_cons_ne (p ++ s) ha
    rw [List.cons_append, stripTrailingNum, hm]
    simp only [Bool.false_eq_true, if_false, List.cons.injEq, true_and]
    exact ih (fun c hc => hp c (by simp [hc]))

theorem stripTrailingNum_digits_danda (g : PyStr)
    (hgd : ∀ c ∈ g, isDevDigit c = true) :
    stripTrailingNum (g ++ [2405]) = g ++ [2405] := by
  induction g with
  | nil => decide
  | cons a g ih =>
    have ha : a ≠ 2405 := devDigit_ne_danda2 (hgd a (by simp))
    have hm := trailingNumMatch_cons_ne (g ++ [2405]) ha
    rw [List.cons_append, stripTrailingNum, hm]
    simp only [Bool.false_eq_true, if_false, List.cons.injEq, true_and]
    exact ih (fun c hc => hgd c (by simp [hc]))

theorem stripTrailingNum_one_group (g : PyStr)
    (hg : g ≠ []) (hgd : ∀ c ∈ g, isDevDigit c = true) :
    stripTrailingNum (2405 :: (g ++ [2405])) = 2405 :: (g ++ [2405]) := by
  have hm := trailingNumMatch_one_group g hg hgd
  rw [stripTrailingNum, hm]
  simp only [Bool.false_eq_true, if_false, List.cons.injEq, true_and]
  exact stripTrailingNum_digits_danda g hgd

/-- Claim C3, counterexample: a line ending in a closing-mark-delimited
annotation with a single digit group is NOT removed by the trailing-locator
step, because the pattern of `RE_TRAILING_NUM` demands at least one further
dash-joined digit group; the general danda strip removes the two closing
marks and the digit survives. -/
theorem clean_shloka_line_single_group_counterexample :
    stripTrailingNum (codes "क ॥१॥") = codes "क ॥१॥"
    ∧ clean_shloka_line (codes "क ॥१॥") = codes "क १"
    ∧ clean_shloka_line (codes "क ॥१॥") ≠ codes "क" := by decide

/-- Claim C3, amended: `clean_shloka_line` first removes a trailing verse
locator of the form closing-mark, TWO OR THREE hyphen or en-dash joined
Devanagari digit groups, closing-mark, anchored at the end of the line,
then removes all single and double verse-end marks anywhere in the line,
then trims surrounding whitespace; a trailing annotation with a single
digit group is not matched by the trailing-locator step, so only its two
closing marks are removed (by the general strip) and its digits remain. -/
theorem clean_shloka_line_amended
    (p g1 g2 g3 : PyStr) (dsh dsh2 : Nat)
    (hp : ∀ c ∈ p, c ≠ 2405)
    (hdsh : isDashEnDash dsh = true) (hdsh2 : isDashEnDash dsh2 = true)
    (hg1 : g1 ≠ []) (hg1d : ∀ c ∈ g1, isDevDigit c = true)
    (hg2 : g2 ≠ []) (hg2d : ∀ c ∈ g2, isDevDigit c = true)
    (hg3 : g3 ≠ []) (hg3d : ∀ c ∈ g3, isDevDigit c = true) :
    clean_shloka_line (p ++ (2405 :: (g1 ++ (dsh :: (g2 ++ [2405])))))
      = pyStrip (removeDandas p)
    ∧ clean_shloka_line (p ++ (2405 :: (g1 ++ (dsh :: (g2 ++ (dsh2 :: (g3 ++ [2405])))))))
      = pyStrip (removeDandas p)
    ∧ clean_shloka_line (p ++ (2405 :: (g1 ++ [2405])))
      = pyStrip (removeDandas p ++ g1) := by
  refine ⟨?_, ?_, ?_⟩
  · have hm := trailingNumMatch_two_groups dsh g1 g2 hdsh hg1 hg1d hg2 hg2d
    unfold clean_shloka_line
    rw [stripTrailingNum_append_of_match p _ hp hm]
  · have hm := trailingNumMatch_three_groups dsh dsh2 g1 g2 g3 hdsh hdsh2
      hg1 hg1d hg2 hg2d hg3 hg3d
    unfold clean_shloka_line
    rw [stripTrailingNum_append_of_match p _ hp hm]
  · unfold clean_shloka_line
    rw [stripTrailingNum_append_of_id p _ hp (stripTrailingNum_one_group g1 hg1 hg1d)]
    have hfg : g1.filter (fun c => !(isDanda c)) = g1 :=
      List.filter_eq_self.mpr (fun c hc => by
        simp [devDigit_not_danda (hg1d c hc)])
    have hsingle : List.filter (fun c => !(isDanda c)) [2405] = [] := by decide
    have h1 : List.filter (fun c => !(isDanda c)) (2405 :: (g1 ++ [2405])) = g1 := by
      rw [show (2405 :: (g1 ++ [2405]) : PyStr) = [2405] ++ (g1 ++ [2405]) from rfl,
        List.filter_append, List.filter_append, hfg, hsingle]
      simp
    simp only [removeDandas, List.filter_append, h1]

/-- Claim C3, witness for the amended theorem at concrete lines. -/
theorem clean_shloka_line_amended_witness :
    ((∀ c ∈ codes "रामः ", c ≠ 2405)
      ∧ isDashEnDash 45 = true ∧ isDashEnDash 8211 = true
      ∧ codes "१" ≠ [] ∧ (∀ c ∈ codes "१", isDevDigit c = true)
      ∧ codes "२" ≠ [] ∧ (∀ c ∈ codes "२", isDevDigit c = true)
      ∧ codes "३" ≠ [] ∧ (∀ c ∈ codes "३", isDevDigit c = true))
    ∧ (clean_shloka_line (codes "रामः " ++ (2405 :: (codes "१" ++ (45 :: (codes "२" ++ [2405])))))
        = pyStrip (removeDandas (codes "रामः "))
      ∧ clean_shloka_line
          (codes "रामः " ++ (2405 :: (codes "१" ++ (45 :: (codes "२" ++ (8211 :: (codes "३" ++ [2405])))))))
        = pyStrip (removeDandas (codes "रामः "))
      ∧ clean_shloka_line (codes "रामः " ++ (2405 :: (codes "१" ++ [2405])))
        = pyStrip (removeDandas (codes "रामः ") ++ codes "१")) :=
  ⟨by decide,
   clean_shloka_line_amended (codes "रामः ") (codes "१") (codes "२") (codes "३")
     45 8211 (by decide) (by decide) (by decide) (by decide) (by decide)
     (by decide) (by decide) (by decide) (by decide)⟩

theorem pyCharLower_not_upper (c : Nat) : isAsciiUpper (pyCharLower c) = false := by
  unfold pyCharLower
  cases h : isAsciiUpper c with
  | false =>
    rw [if_neg (by simp [h])]
    exact h
  | true =>
    have hb : 65 ≤ c ∧ c ≤ 90 := by simpa [isAsciiUpper] using h
    simp only [h, if_true, isAsciiUpper, decide_eq_false_iff_not]
    omega

theorem pyCharLower_eq_45_iff (c : Nat) : pyCharLower c = 45 ↔ c = 45 := by
  unfold pyCharLower
  cases h : isAsciiUpper c with
  | false => simp [h]
  | true =>
    have hb : 65 ≤ c ∧ c ≤ 90 := by simpa [isAsciiUpper] using h
    simp only [h, if_true]
    constructor
    · intro hc; omega
    · intro hc; omega

theorem pyCharLower_idem (c : Nat) : pyCharLower (pyCharLower c) = pyCharLower c := by
  have h := pyCharLower_not_upper c
  conv_lhs => rw [pyCharLower]
  rw [if_neg (by simp [h])]

theorem alnum_bounds {c : Nat} (h : isAsciiAlnum c = true) :
    (48 ≤ c ∧ c ≤ 57) ∨ (97 ≤ c ∧ c ≤ 122) ∨ (65 ≤ c ∧ c ≤ 90) := by
  simpa [isAsciiAlnum] using h

theorem alnum_ne_45 {c : Nat} (h : isAsciiAlnum c = true) : c ≠ 45 := by
  have := alnum_bounds h
  omega

theorem alnum_pyCharLower {c : Nat} (h : isAsciiAlnum c = true) :
    isAsciiAlnum (pyCharLower c) = true := by
  have hb := alnum_bounds h
  unfold pyCharLower
  cases hu : isAsciiUpper c with
  | false => simpa using h
  | true =>
    have hub : 65 ≤ c ∧ c ≤ 90 := by simpa [isAsciiUpper] using hu
    simp only [hu, if_true, isAsciiAlnum, decide_eq_true_eq]
    omega

theorem camelSplit_id (l : List Nat) (h : ∀ c ∈ l, isAsciiUpper c = false) :
    camelSplit l = l := by
  induction l with
  | nil => rfl
  | cons c1 tl ih =>
    cases tl with
    | nil => rfl
    | cons c2 rest =>
      have h2 : isAsciiUpper c2 = false := h c2 (by simp)
      rw [camelSplit, if_neg (by simp [h2])]
      have := ih (fun c hc => h c (List.mem_cons_of_mem c1 hc))
      rw [this]

theorem dashifyAux_chars (b : Bool) (l : List Nat) :
    ∀ c ∈ dashifyAux b l, isAsciiAlnum c = true ∨ c = 45 := by
  induction l generalizing b with
  | nil => intro c hc; simp [dashifyAux] at hc
  | cons a rest ih =>
    intro c hc
    by_cases ha : isAsciiAlnum a = true
    · rw [dashifyAux, if_pos ha] at hc
      rcases List.mem_cons.mp hc with rfl | hc
      · exact Or.inl ha
      · exact ih false c hc
    · have ha2 : isAsciiAlnum a = false := Bool.eq_false_iff.mpr ha
      cases b with
      | true =>
        rw [dashifyAux, if_neg (by simp [ha2]), if_pos rfl] at hc
        exact ih true c hc
      | false =>
        rw [dashifyAux, if_neg (by simp [ha2]), if_neg (by simp)] at hc
        rcases List.mem_cons.mp hc with rfl | hc
        · exact Or.inr rfl
        · exact ih true c hc

theorem dashifyAux_true_head (l : List Nat) :
    ∀ c, (dashifyAux true l).head? = some c → isAsciiAlnum c = true := by
  induction l with
  | nil => intro c hc; simp [dashifyAux] at hc
  | cons a rest ih =>
    intro c hc
    by_cases ha : isAsciiAlnum a = true
    · rw [dashifyAux, if_pos ha] at hc
      simp only [List.head?_cons, Option.some.injEq] at hc
      subst hc
      exact ha
    · have ha2 : isAsciiAlnum a = false := Bool.eq_false_iff.mpr ha
      rw [dashifyAux, if_neg (by simp [ha2]), if_pos rfl] at hc
      exact ih c hc

theorem dashifyAux_chain (b : Bool) (l : List Nat) :
    List.Chain' (fun x y => ¬(x = 45 ∧ y = 45)) (dashifyAux b l) := by
  induction l generalizing b with
  | nil => simp [dashifyAux]
  | cons a rest ih =>
    by_cases ha : isAsciiAlnum a = true
    · rw [dashifyAux, if_pos ha, List.chain'_cons']
      exact ⟨fun y _ hxy => (alnum_ne_45 ha) hxy.1, ih false⟩
    · have ha2 : isAsciiAlnum a = false := Bool.eq_false_iff.mpr ha
      cases b with
      | true =>
        rw [dashifyAux, if_neg (by simp [ha2]), if_pos rfl]
        exact ih true
      | false =>
        rw [dashifyAux, if_neg (by simp [ha2]), if_neg (by simp), List.chain'_cons']
        refine ⟨?_, ih true⟩
        intro y hy hxy
        exact (alnum_ne_45 (dashifyAux_true_head rest y hy)) hxy.2

theorem dashifyAux_id (l : List Nat) :
    ∀ b : Bool,
    (∀ c ∈ l, isAsciiAlnum c = true ∨ c = 45) →
    List.Chain' (fun x y => ¬(x = 45 ∧ y = 45)) l →
    (b = true → ∀ c, l.head? = some c → c ≠ 45) →
    dashifyAux b l = l := by
  induction l with
  | nil => intro b _ _ _; rfl
  | cons a rest ih =>
    intro b hchars hchain hhead
    by_cases ha : isAsciiAlnum a = true
    · rw [dashifyAux, if_pos ha]
      have htl := (List.chain'_cons'.mp hchain).2
      rw [ih false (fun c hc => hchars c (List.mem_cons_of_mem a hc)) htl
        (fun h => by cases h)]
    · have ha45 : a = 45 := (hchars a (by simp)).resolve_left ha
      cases b with
      | true => exact absurd ha45 (hhead rfl a rfl)
      | false =>
        have ha2 : isAsciiAlnum a = false := Bool.eq_false_iff.mpr ha
        rw [dashifyAux, if_neg (by simp [ha2]), if_neg (by simp)]
        subst ha45
        have htl := (List.chain'_cons'.mp hchain).2
        have hrel := (List.chain'_cons'.mp hchain).1
        rw [ih true (fun c hc => hchars c (List.mem_cons_of_mem 45 hc)) htl ?_]
        intro _ c hc hc45
        exact hrel c hc ⟨rfl, hc45⟩

theorem head?_dropWhile_not {p : Nat → Bool} (l : List Nat) :
    ∀ c, (l.dropWhile p).head? = some c → p c = false := by
  induction l with
  | nil => intro c hc; simp at hc
  | cons a rest ih =>
    intro c hc
    by_cases ha : p a = true
    · rw [List.dropWhile_cons, if_pos ha] at hc
      exact ih c hc
    · have ha2 : p a = false := Bool.eq_false_iff.mpr ha
      rw [List.dropWhile_cons, if_neg (by simp [ha2])] at hc
      simp only [List.head?_cons, Option.some.injEq] at hc
      subst hc
      exact ha2

theorem dropWhile_eq_self_of_head {p : Nat → Bool} (l : List Nat)
    (h : ∀ c, l.head? = some c → p c = false) : l.dropWhile p = l := by
  cases l with
  | nil => rfl
  | cons a rest =>
    rw [List.dropWhile_cons, if_neg]
    simp [h a rfl]

theorem stripDashes_eq_self (l : List Nat)
    (hh : ∀ c, l.head? = some c → c ≠ 45)
    (hl : ∀ c, l.getLast? = some c → c ≠ 45) : stripDashes l = l := by
  have h1 : l.dropWhile (fun c => decide (c = 45)) = l :=
    dropWhile_eq_self_of_head l (fun c hc => by simp [hh c hc])
  have h2 : l.reverse.dropWhile (fun c => decide (c = 45)) = l.reverse :=
    dropWhile_eq_self_of_head l.reverse (fun c hc => by
      rw [List.head?_reverse] at hc
      simp [hl c hc])
  unfold stripDashes
  rw [h1, h2, List.reverse_reverse]

theorem getLast?_append_right (l t : List Nat) (h : t ≠ []) :
    (l ++ t).getLast? = t.getLast? := by
  induction l with
  | nil => rfl
  | cons a l ih =>
    rw [List.cons_append, List.getLast?_cons, ih]
    cases t with
    | nil => exact absurd rfl h
    | cons b t => simp [List.getLast?_cons]

theorem stripDashes_head (l : List Nat) :
    ∀ c, (stripDashes l).head? = some c → c ≠ 45 := by
  intro c hc
  unfold stripDashes at hc
  rw [List.head?_reverse] at hc
  set A := l.dropWhile (fun c => decide (c = 45)) with hA
  set B := A.reverse.dropWhile (fun c => decide (c = 45)) with hB
  have hBne : B ≠ [] := by
    intro hnil
    rw [hnil] at hc
    simp at hc
  obtain ⟨t, ht⟩ := List.dropWhile_suffix (l := A.reverse) (fun c => decide (c = 45))
  have : (t ++ B).getLast? = B.getLast? := getLast?_append_right t B hBne
  rw [ht] at this
  rw [List.getLast?_reverse] at this
  have hAhead : A.head? = some c := this.trans hc
  have := head?_dropWhile_not l c hAhead
  simpa using this

theorem stripDashes_last (l : List Nat) :
    ∀ c, (stripDashes l).getLast? = some c → c ≠ 45 := by
  intro c hc
  unfold stripDashes at hc
  rw [List.getLast?_reverse] at hc
  have := head?_dropWhile_not (l.dropWhile (fun c => decide (c = 45))).reverse c hc
  simpa using this

theorem stripDashes_subset (l : List Nat) : ∀ c ∈ stripDashes l, c ∈ l := by
  intro c hc
  unfold stripDashes at hc
  rw [List.mem_reverse] at hc
  have h1 := (List.dropWhile_sublist (fun c => decide (c = 45))).subset hc
  rw [List.mem_reverse] at h1
  exact (List.dropWhile_sublist (fun c => decide (c = 45))).subset h1

theorem chain_stripDashes (l : List Nat)
    (h : List.Chain' (fun x y => ¬(x = 45 ∧ y = 45)) l) :
    List.Chain' (fun x y => ¬(x = 45 ∧ y = 45)) (stripDashes l) := by
  have hsymm : ∀ x y : Nat, ¬(x = 45 ∧ y = 45) → ¬(y = 45 ∧ x = 45) :=
    fun x y hxy hyx => hxy ⟨hyx.2, hyx.1⟩
  have h1 : List.Chain' (fun x y => ¬(x = 45 ∧ y = 45))
      (l.dropWhile (fun c => decide (c = 45))) :=
    h.suffix (List.dropWhile_suffix _)
  have h2 : List.Chain' (fun x y => ¬(x = 45 ∧ y = 45))
      (l.dropWhile (fun c => decide (c = 45))).reverse := by
    rw [List.chain'_reverse]
    exact h1.imp (fun a b => hsymm a b)
  have h3 : List.Chain' (fun x y => ¬(x = 45 ∧ y = 45))
      ((l.dropWhile (fun c => decide (c = 45))).reverse.dropWhile
        (fun c => decide (c = 45))) :=
    h2.suffix (List.dropWhile_suffix _)
  unfold stripDashes
  rw [List.chain'_reverse]
  exact h3.imp (fun a b => hsymm a b)

/-- Claim C6: slug normalization is idempotent. -/
theorem normalise_slug_idem (s : PyStr) :
    normalise_slug (normalise_slug s) = normalise_slug s := by
  have hchars_d := dashifyAux_chars false (camelSplit s)
  have hchain_d := dashifyAux_chain false (camelSplit s)
  set z := stripDashes (dashifyAux false (camelSplit s)) with hz
  have hchars_z : ∀ c ∈ z, isAsciiAlnum c = true ∨ c = 45 := fun c hc =>
    hchars_d c (stripDashes_subset _ c hc)
  have hchain_z : List.Chain' (fun x y => ¬(x = 45 ∧ y = 45)) z :=
    chain_stripDashes _ hchain_d
  have hni : ∀ c ∈ pyLower z, isAsciiUpper c = false := by
    intro c hc
    obtain ⟨c0, _, rfl⟩ := List.mem_map.mp hc
    exact pyCharLower_not_upper c0
  have step1 : camelSplit (pyLower z) = pyLower z := camelSplit_id _ hni
  have chars_out : ∀ c ∈ pyLower z, isAsciiAlnum c = true ∨ c = 45 := by
    intro c hc
    obtain ⟨c0, hc0, rfl⟩ := List.mem_map.mp hc
    rcases hchars_z c0 hc0 with h | h
    · exact Or.inl (alnum_pyCharLower h)
    · subst h
      exact Or.inr ((pyCharLower_eq_45_iff 45).mpr rfl)
  have chain_out : List.Chain' (fun x y => ¬(x = 45 ∧ y = 45)) (pyLower z) := by
    unfold pyLower
    rw [List.chain'_map]
    refine hchain_z.imp ?_
    intro a b hab hab2
    exact hab ⟨(pyCharLower_eq_45_iff a).mp hab2.1, (pyCharLower_eq_45_iff b).mp hab2.2⟩
  have step2 : dashify (pyLower z) = pyLower z := by
    unfold dashify
    exact dashifyAux_id _ false chars_out chain_out (fun h => by cases h)
  have step3 : stripDashes (pyLower z) = pyLower z := by
    apply stripDashes_eq_self
    · intro c hc
      unfold pyLower at hc
      rw [List.head?_map] at hc
      cases hz0 : z.head? with
      | none => rw [hz0] at hc; simp at hc
      | some c0 =>
        rw [hz0] at hc
        simp at hc
        subst hc
        intro h45
        exact stripDashes_head _ c0 hz0 ((pyCharLower_eq_45_iff c0).mp h45)
    · intro c hc
      unfold pyLower at hc
      rw [List.getLast?_map] at hc
      cases hz0 : z.getLast? with
      | none => rw [hz0] at hc; simp at hc
      | some c0 =>
        rw [hz0] at hc
        simp at hc
        subst hc
        intro h45
        exact stripDashes_last _ c0 hz0 ((pyCharLower_eq_45_iff c0).mp h45)
  have step4 : pyLower (pyLower z) = pyLower z := by
    unfold pyLower
    rw [List.map_map]
    exact List.map_congr_left (fun c _ => pyCharLower_idem c)
  calc normalise_slug (normalise_slug s)
      = pyLower (stripDashes (dashify (camelSplit (pyLower z)))) := rfl
    _ = pyLower (stripDashes (dashify (pyLower z))) := by rw [step1]
    _ = pyLower (stripDashes (pyLower z)) := by rw [step2]
    _ = pyLower (pyLower z) := by rw [step3]
    _ = pyLower z := step4

theorem ext_refl (a : TitleIndex) :
    (∃ e, a.by_slug = a.by_slug ++ e) ∧ ∃ e, a.by_numbers = a.by_numbers ++ e :=
  ⟨⟨[], by simp⟩, ⟨[], by simp⟩⟩

theorem ext_trans {a b c : TitleIndex}
    (h1 : (∃ e, b.by_slug = a.by_slug ++ e) ∧ ∃ e, b.by_numbers = a.by_numbers ++ e)
    (h2 : (∃ e, c.by_slug = b.by_slug ++ e) ∧ ∃ e, c.by_numbers = b.by_numbers ++ e) :
    (∃ e, c.by_slug = a.by_slug ++ e) ∧ ∃ e, c.by_numbers = a.by_numbers ++ e := by
  obtain ⟨⟨e1, he1⟩, ⟨e2, he2⟩⟩ := h1
  obtain ⟨⟨e3, he3⟩, ⟨e4, he4⟩⟩ := h2
  exact ⟨⟨e1 ++ e3, by rw [he3, he1, List.append_assoc]⟩,
         ⟨e2 ++ e4, by rw [he4, he2, List.append_assoc]⟩⟩

theorem setdefaultSlug_ext (t : TitleIndex) (k v : PyStr) :
    (∃ e, (setdefaultSlug t k v).by_slug = t.by_slug ++ e)
    ∧ (setdefaultSlug t k v).by_numbers = t.by_numbers := by
  unfold setdefaultSlug
  split
  · exact ⟨⟨[], by simp⟩, rfl⟩
  · exact ⟨⟨[(k, v)], rfl⟩, rfl⟩

theorem setdefaultNum_ext (t : TitleIndex) (k : Int × Int) (v : PyStr) :
    (setdefaultNum t k v).by_slug = t.by_slug
    ∧ ∃ e, (setdefaultNum t k v).by_numbers = t.by_numbers ++ e := by
  unfold setdefaultNum
  split
  · exact ⟨rfl, ⟨[], by simp⟩⟩
  · exact ⟨rfl, ⟨[(k, v)], rfl⟩⟩

theorem registerNode_ext (fields : List (PyStr × Json)) (inherited : Option Int)
    (t : TitleIndex) :
    (∃ e, (registerNode fields inherited t).2.by_slug = t.by_slug ++ e)
    ∧ ∃ e, (registerNode fields inherited t).2.by_numbers = t.by_numbers ++ e := by
  have hsd : ∀ (t0 : TitleIndex) (sv tv : PyStr),
      (∃ e, (setdefaultSlug t0 sv tv).by_slug = t0.by_slug ++ e)
      ∧ ∃ e, (setdefaultSlug t0 sv tv).by_numbers = t0.by_numbers ++ e :=
    fun t0 sv tv =>
      ⟨(setdefaultSlug_ext t0 sv tv).1, ⟨[], by simp [(setdefaultSlug_ext t0 sv tv).2]⟩⟩
  have hsn : ∀ (t0 : TitleIndex) (k : Int × Int) (tv : PyStr),
      (∃ e, (setdefaultNum t0 k tv).by_slug = t0.by_slug ++ e)
      ∧ ∃ e, (setdefaultNum t0 k tv).by_numbers = t0.by_numbers ++ e :=
    fun t0 k tv =>
      ⟨⟨[], by simp [(setdefaultNum_ext t0 k tv).1]⟩, (setdefaultNum_ext t0 k tv).2⟩
  unfold registerNode
  rcases extractStrField fields pyStrip TITLE_KEYS with _ | tv
  · exact ext_refl t
  · try dsimp only
    split
    · rcases extractStrField fields normalise_slug SLUG_KEYS with _ | sv
      · try dsimp only
        rcases extractIntFrom fields KANDA_KEYS with _ | k
        · try dsimp only
          rcases inherited with _ | ki
          · rcases extractIntFrom fields SARGA_KEYS with _ | sg
            · exact ext_refl t
            · exact ext_refl t
          · rcases extractIntFrom fields SARGA_KEYS with _ | sg
            · exact ext_refl t
            · exact hsn t (ki, sg) tv
        · try dsimp only
          rcases extractIntFrom fields SARGA_KEYS with _ | sg
          · exact ext_refl t
          · exact hsn t (k, sg) tv
      · try dsimp only
        by_cases hsv : sv ≠ []
        · simp only [if_pos hsv]
          rcases extractIntFrom fields KANDA_KEYS with _ | k
          · try dsimp only
            rcases inherited with _ | ki
            · rcases extractIntFrom fields SARGA_KEYS with _ | sg
              · exact hsd t sv tv
              · exact hsd t sv tv
            · rcases extractIntFrom fields SARGA_KEYS with _ | sg
              · exact hsd t sv tv
              · exact ext_trans (hsd t sv tv) (hsn (setdefaultSlug t sv tv) (ki, sg) tv)
          · try dsimp only
            rcases extractIntFrom fields SARGA_KEYS with _ | sg
            · exact hsd t sv tv
            · exact ext_trans (hsd t sv tv) (hsn (setdefaultSlug t sv tv) (k, sg) tv)
        · simp only [if_neg hsv]
          rcases extractIntFrom fields KANDA_KEYS with _ | k
          · try dsimp only
            rcases inherited with _ | ki
            · rcases extractIntFrom fields SARGA_KEYS with _ | sg
              · exact ext_refl t
              · exact ext_refl t
            · rcases extractIntFrom fields SARGA_KEYS with _ | sg
              · exact ext_refl t
              · exact hsn t (ki, sg) tv
          · try dsimp only
            rcases extractIntFrom fields SARGA_KEYS with _ | sg
            · exact ext_refl t
            · exact hsn t (k, sg) tv
    · exact ext_refl t

theorem scan_extends (j0 : Json) (inh0 : Option Int) (t0 : TitleIndex) :
    (∃ e, (scan j0 inh0 t0).by_slug = t0.by_slug ++ e)
    ∧ ∃ e, (scan j0 inh0 t0).by_numbers = t0.by_numbers ++ e := by
  apply scan.induct
    (motive_1 := fun j inh t =>
      (∃ e, (scan j inh t).by_slug = t.by_slug ++ e)
      ∧ ∃ e, (scan j inh t).by_numbers = t.by_numbers ++ e)
    (motive_2 := fun fields inh t =>
      (∃ e, (scanFields fields inh t).by_slug = t.by_slug ++ e)
      ∧ ∃ e, (scanFields fields inh t).by_numbers = t.by_numbers ++ e)
    (motive_3 := fun items inh t =>
      (∃ e, (scanList items inh t).by_slug = t.by_slug ++ e)
      ∧ ∃ e, (scanList items inh t).by_numbers = t.by_numbers ++ e)
  · intro inh t items ih
    simpa only [scan] using ih
  · intro inh t fields ih
    simp only [scan]
    exact ext_trans (registerNode_ext fields inh t) ih
  · intro j inh t hna hno
    rcases j with _ | b | n | s | items | fields
    · simpa only [scan] using ext_refl t
    · simpa only [scan] using ext_refl t
    · simpa only [scan] using ext_refl t
    · simpa only [scan] using ext_refl t
    · exact absurd rfl (hna items)
    · exact absurd rfl (hno fields)
  · intro inh t
    simpa only [scanList] using ext_refl t
  · intro inh t j rest ih1 ih2
    simp only [scanList]
    exact ext_trans ih1 ih2
  · intro inh t
    simpa only [scanFields] using ext_refl t
  · intro inh t fst rest items ih1 ih2
    simp only [scanFields]
    exact ext_trans ih1 ih2
  · intro inh t fst rest fields ih1 ih2
    simp only [scanFields]
    exact ext_trans ih1 ih2
  · intro inh t fst v rest hna hno ih
    rcases v with _ | b | n | s | items | fields
    · simpa only [scanFields] using ih
    · simpa only [scanFields] using ih
    · simpa only [scanFields] using ih
    · simpa only [scanFields] using ih
    · exact absurd rfl (hna items)
    · exact absurd rfl (hno fields)

theorem find?_append_some {α : Type} (l1 l2 : List α) (p : α → Bool) (x : α)
    (h : l1.find? p = some x) : (l1 ++ l2).find? p = some x := by
  induction l1 with
  | nil => simp at h
  | cons a l ih =>
    by_cases hpa : p a = true
    · rw [List.find?_cons_of_pos _ hpa] at h
      rw [List.cons_append, List.find?_cons_of_pos _ hpa]
      exact h
    · have hpa2 : p a = false := Bool.eq_false_iff.mpr hpa
      rw [List.find?_cons_of_neg _ (by simp [hpa2])] at h
      rw [List.cons_append, List.find?_cons_of_neg _ (by simp [hpa2])]
      exact ih h

/-- Claim C4: the title index keeps the first-seen title for every slug
key and for every numeric (book, chapter) key.  Scanning any further
metadata — a repetition of the same key with a different title included —
only appends `setdefault`-guarded entries, so an existing binding is never
overwritten and lookup keeps returning the first-seen title for that
key. -/
theorem titleindex_first_seen_wins (j : Json) (inh : Option Int) (t : TitleIndex)
    (k : PyStr) (nk : Int × Int) (v w : PyStr) :
    (findSlug t k = some v → findSlug (scan j inh t) k = some v)
    ∧ (findNum t nk = some w → findNum (scan j inh t) nk = some w) := by
  obtain ⟨⟨e1, he1⟩, ⟨e2, he2⟩⟩ := scan_extends j inh t
  constructor
  · intro hv
    unfold findSlug at hv ⊢
    rw [he1]
    obtain ⟨p, hp, hv2⟩ := Option.map_eq_some'.mp hv
    rw [find?_append_some _ _ _ _ hp]
    simp [hv2]
  · intro hw
    unfold findNum at hw ⊢
    rw [he2]
    obtain ⟨p, hp, hw2⟩ := Option.map_eq_some'.mp hw
    rw [find?_append_some _ _ _ _ hp]
    simp [hw2]

/-- Claim C4, witness: scanning a node that repeats the slug key `a` and
the numeric key (1, 1) with the different title `Second` leaves the
existing bindings for `First` untouched. -/
theorem titleindex_first_seen_wins_witness :
    (findSlug ⟨[(codes "a", codes "First")], [((1, 1), codes "First")]⟩ (codes "a")
        = some (codes "First"))
    ∧ (findNum ⟨[(codes "a", codes "First")], [((1, 1), codes "First")]⟩ (1, 1)
        = some (codes "First"))
    ∧ findSlug (scan (.obj [(codes "slug", .str (codes "a")),
        (codes "title", .str (codes "Second")), (codes "book", .num 1),
        (codes "sarga", .num 1)]) none
        ⟨[(codes "a", codes "First")], [((1, 1), codes "First")]⟩) (codes "a")
        = some (codes "First")
    ∧ findNum (scan (.obj [(codes "slug", .str (codes "a")),
        (codes "title", .str (codes "Second")), (codes "book", .num 1),
        (codes "sarga", .num 1)]) none
        ⟨[(codes "a", codes "First")], [((1, 1), codes "First")]⟩) (1, 1)
        = some (codes "First") :=
  ⟨by decide, by decide,
   (titleindex_first_seen_wins (.obj [(codes "slug", .str (codes "a")),
      (codes "title", .str (codes "Second")), (codes "book", .num 1),
      (codes "sarga", .num 1)]) none
      ⟨[(codes "a", codes "First")], [((1, 1), codes "First")]⟩
      (codes "a") (1, 1) (codes "First") (codes "First")).1 (by decide),
   (titleindex_first_seen_wins (.obj [(codes "slug", .str (codes "a")),
      (codes "title", .str (codes "Second")), (codes "book", .num 1),
      (codes "sarga", .num 1)]) none
      ⟨[(codes "a", codes "First")], [((1, 1), codes "First")]⟩
      (codes "a") (1, 1) (codes "First") (codes "First")).2 (by decide)⟩

/-- Claim C5: with a parent node declaring book 3 and a child declaring
only sarga 5, a slug and a title, the book number is inherited from the
parent: after construction the slug table and the numeric table both hold
the title under "panchavati" and under (3, 5), and `get` returns it for
the slug (in any letter case) and, through the numeric fallback, for an
unknown slug with the pair (3, 5). -/
theorem titleindex_inherits_book_number :
    (scan (.obj [(codes "book", .num 3),
      (codes "chapters", .arr [
        .obj [(codes "sarga", .num 5), (codes "slug", .str (codes "panchavati")),
              (codes "title", .str (codes "Panchavati"))]])]) none ⟨[], []⟩).by_slug
      = [(codes "panchavati", codes "Panchavati")]
    ∧ (scan (.obj [(codes "book", .num 3),
      (codes "chapters", .arr [
        .obj [(codes "sarga", .num 5), (codes "slug", .str (codes "panchavati")),
              (codes "title", .str (codes "Panchavati"))]])]) none ⟨[], []⟩).by_numbers
      = [((3, 5), codes "Panchavati")]
    ∧ (scan (.obj [(codes "book", .num 3),
      (codes "chapters", .arr [
        .obj [(codes "sarga", .num 5), (codes "slug", .str (codes "panchavati")),
              (codes "title", .str (codes "Panchavati"))]])]) none ⟨[], []⟩).get
        (codes "panchavati") 3 5 = some (codes "Panchavati")
    ∧ (scan (.obj [(codes "book", .num 3),
      (codes "chapters", .arr [
        .obj [(codes "sarga", .num 5), (codes "slug", .str (codes "panchavati")),
              (codes "title", .str (codes "Panchavati"))]])]) none ⟨[], []⟩).get
        (codes "Panchavati") 3 5 = some (codes "Panchavati")
    ∧ (scan (.obj [(codes "book", .num 3),
      (codes "chapters", .arr [
        .obj [(codes "sarga", .num 5), (codes "slug", .str (codes "panchavati")),
              (codes "title", .str (codes "Panchavati"))]])]) none ⟨[], []⟩).get
        (codes "unknown") 3 5 = some (codes "Panchavati") := by
  refine ⟨?_, ?_, ?_, ?_, ?_⟩ <;> decide

/-- Claim C8: building the title index from a missing metadata file yields
the empty index with no error; a metadata file that exists but fails to
parse raises `SystemExit`, which aborts the whole run with a non-zero exit
status before any chapter file is processed; a file that parses builds the
index by scanning the payload. -/
theorem from_map_file_error_handling :
    from_map_file none = .ok ⟨[], []⟩
    ∧ (∀ e, from_map_file (some (.error e))
        = .error (codes "Unable to parse map file: " ++ e))
    ∧ (∀ e overwrite ts files,
        full_main_exit (some (.error e)) overwrite ts files = 1)
    ∧ (∀ payload, from_map_file (some (.ok payload))
        = .ok (scan payload none ⟨[], []⟩)) :=
  ⟨rfl, fun _ => rfl, fun _ _ _ _ => rfl, fun _ => rfl⟩

theorem tex_escape_char (c : Nat) :
    (match (TEX_SPECIAL_CHARS.find? (fun p => decide (p.1 = c))).map (fun p => p.2) with
     | some r => r
     | none => [c]) = spec_escaped_form c := by
  by_cases h1 : c = 38
  · subst h1; decide
  by_cases h2 : c = 37
  · subst h2; decide
  by_cases h3 : c = 36
  · subst h3; decide
  by_cases h4 : c = 35
  · subst h4; decide
  by_cases h5 : c = 95
  · subst h5; decide
  by_cases h6 : c = 123
  · subst h6; decide
  by_cases h7 : c = 125
  · subst h7; decide
  by_cases h8 : c = 126
  · subst h8; decide
  by_cases h9 : c = 94
  · subst h9; decide
  have e : TEX_SPECIAL_CHARS.find? (fun p => decide (p.1 = c)) = none := by
    rw [List.find?_eq_none]
    intro x hx
    fin_cases hx <;> simp <;> omega
  rw [e, spec_escaped_form, if_neg h1, if_neg h2, if_neg h3, if_neg h4, if_neg h5,
    if_neg h6, if_neg h7, if_neg h8, if_neg h9]
  rfl

/-- Claim C7: `tex_escape` replaces each occurrence of a character with
special meaning (ampersand, percent, dollar, hash, underscore, opening and
closing brace, tilde, caret) by its escaped or macro form from the fixed
substitution table and leaves every other character unchanged: it maps the
input character-wise through the table of the spec, distributes over
concatenation, and is the identity on any single character outside the
table. -/
theorem tex_escape_table_spec :
    (∀ s : PyStr, tex_escape s = (s.map spec_escaped_form).flatten)
    ∧ (∀ s t : PyStr, tex_escape (s ++ t) = tex_escape s ++ tex_escape t)
    ∧ (∀ c : Nat, (∀ p ∈ TEX_SPECIAL_CHARS, p.1 ≠ c) → tex_escape [c] = [c]) := by
  have hmain : ∀ s : PyStr, tex_escape s = (s.map spec_escaped_form).flatten := by
    intro s
    unfold tex_escape
    congr 1
    exact List.map_congr_left (fun c _ => tex_escape_char c)
  refine ⟨hmain, ?_, ?_⟩
  · intro s t
    rw [hmain, hmain, hmain, List.map_append, List.flatten_append]
  · intro c hc
    have e : TEX_SPECIAL_CHARS.find? (fun p => decide (p.1 = c)) = none := by
      rw [List.find?_eq_none]
      intro x hx
      simp [hc x hx]
    simp [tex_escape, e]

/-- Claim C7, witness: the Devanagari letter at code point 2325 is outside
the substitution table and passes through unchanged. -/
theorem tex_escape_table_spec_witness :
    (∀ p ∈ TEX_SPECIAL_CHARS, p.1 ≠ 2325) ∧ tex_escape [2325] = [2325] :=
  ⟨by decide, tex_escape_table_spec.2.2 2325 (by decide)⟩

theorem numberFromKeys_single (k : PyStr) (n : Int) (cands : List PyStr)
    (hk : pyLower k ∈ cands) :
    numberFromKeys [(k, Json.num n)] cands = some n := by
  induction cands with
  | nil => simp at hk
  | cons c rest ih =>
    by_cases hc : pyLower k = c
    · have e1 : lowerKeyGet [(k, Json.num n)] c = some k := by
        unfold lowerKeyGet
        simp [List.find?, hc]
      have e2 : objGet [(k, Json.num n)] k = some (Json.num n) := by
        simp [objGet, List.find?]
      rw [numberFromKeys, e1]
      dsimp only
      rw [e2]
      rfl
    · have e1 : lowerKeyGet [(k, Json.num n)] c = none := by
        simp [lowerKeyGet, List.find?, hc]
      rw [numberFromKeys, e1]
      exact ih ((List.mem_cons.mp hk).resolve_left hc)

theorem firstTextValue_single_none (tk : PyStr) (v : Json) (cands : List PyStr)
    (h : tk ∉ cands) : firstTextValue [(tk, v)] cands = none := by
  induction cands with
  | nil => rfl
  | cons c rest ih =>
    have hne : tk ≠ c := fun e => h (by simp [e])
    have e1 : objGet [(tk, v)] c = none := by simp [objGet, List.find?, hne]
    rw [firstTextValue, e1]
    exact ih (fun hm => h (by simp [hm]))

/-- Claim C10: candidate field-name matching is asymmetric between the two
extraction functions.  `extract_shloka_number` matches its candidate keys
case-insensitively: a single-field mapping whose key lower-cases to any
candidate (such as a key spelled Number or INDEX) yields its integer
value.  `extract_shloka_lines` matches its candidate text keys
case-sensitively and its fallback demands the `_sanskrit` suffix: a
single-field mapping whose key is none of the exact candidate spellings
and lacks the suffix (such as a key spelled Text or LINES) yields the
empty line list, so the record is dropped. -/
theorem extraction_case_asymmetry (k tk : PyStr) (n : Int) (v : Json)
    (hk : pyLower k ∈ CANDIDATE_NUMBER_KEYS)
    (h1 : tk ∉ CANDIDATE_TEXT_KEYS)
    (h2 : endsWithSanskrit tk = false) :
    extract_shloka_number (Json.obj [(k, Json.num n)]) = some n
    ∧ extract_shloka_lines (Json.obj [(tk, v)]) = [] := by
  constructor
  · rw [extract_shloka_number, numberFromKeys_single k n CANDIDATE_NUMBER_KEYS hk]
  · rw [extract_shloka_lines, firstTextValue_single_none tk v CANDIDATE_TEXT_KEYS h1]
    dsimp only
    have e : sanskritFallback [(tk, v)] = none := by
      rw [sanskritFallback, if_neg]
      · rfl
      · simp [h2]
    rw [e]

/-- Claim C10, witness: the key INDEX (upper case) still yields the
number, while a mapping whose only text field is spelled Text yields no
lines. -/
theorem extraction_case_asymmetry_witness :
    (pyLower (codes "INDEX") ∈ CANDIDATE_NUMBER_KEYS
      ∧ codes "Text" ∉ CANDIDATE_TEXT_KEYS
      ∧ endsWithSanskrit (codes "Text") = false)
    ∧ extract_shloka_number (Json.obj [(codes "INDEX", Json.num 7)]) = some 7
    ∧ extract_shloka_lines (Json.obj [(codes "Text", Json.str (codes "line"))]) = [] :=
  ⟨⟨by decide, by decide, by decide⟩,
   (extraction_case_asymmetry (codes "INDEX") (codes "Text") 7
     (Json.str (codes "line")) (by decide) (by decide) (by decide)).1,
   (extraction_case_asymmetry (codes "INDEX") (codes "Text") 7
     (Json.str (codes "line")) (by decide) (by decide) (by decide)).2⟩

theorem macro_none_of_gt3 (n : Nat) (h : 3 < n) : MACRO_BY_LINE_COUNT n = none := by
  rcases n with _ | _ | _ | _ | m
  · omega
  · omega
  · omega
  · omega
  · rfl

theorem segSize_gt3 (n : Nat) (h : 3 < n) : segSize n = 2 := by
  unfold segSize
  rw [macro_none_of_gt3 n h]
  simp [h]

theorem segSize_small (n : Nat) (h0 : 0 < n) (h3 : n ≤ 3) : segSize n = n := by
  have hsome : (MACRO_BY_LINE_COUNT n).isSome = true := by
    rcases n with _ | _ | _ | _ | m
    · omega
    · decide
    · decide
    · decide
    · omega
  unfold segSize
  simp [hsome]

theorem macro_segSize_isSome (n : Nat) (h : 0 < n) :
    (MACRO_BY_LINE_COUNT (segSize n)).isSome = true := by
  by_cases h3 : 3 < n
  · rw [segSize_gt3 n h3]
    decide
  · rw [segSize_small n h (by omega)]
    rcases n with _ | _ | _ | _ | m
    · omega
    · decide
    · decide
    · decide
    · omega

theorem build_macro_segments_nil : build_macro_segments [] = [] := by
  rw [build_macro_segments]
  rfl

theorem build_macro_segments_cons (lines : List PyStr) (hx : lines ≠ [])
    (name : PyStr) (hname : MACRO_BY_LINE_COUNT (segSize lines.length) = some name) :
    build_macro_segments lines
      = (name, lines.take (segSize lines.length))
        :: build_macro_segments (lines.drop (segSize lines.length)) := by
  rw [build_macro_segments, dif_neg hx]
  simp only [hname]

theorem build_segments_aux (lines : List PyStr) :
    lines ≠ [] →
    ((build_macro_segments lines).map (fun s => s.2.length)).sum = lines.length
    ∧ build_macro_segments lines ≠ []
    ∧ (∀ s ∈ build_macro_segments lines, 1 ≤ s.2.length ∧ s.2.length ≤ 3)
    ∧ (3 < lines.length →
        ∀ s ∈ (build_macro_segments lines).dropLast, s.2.length = 2)
    ∧ (lines.length ≤ 3 → (build_macro_segments lines).length = 1)
    ∧ (∀ s ∈ build_macro_segments lines,
        s.1 = codes "onelineshloka" ∨ s.1 = codes "twolineshloka"
        ∨ s.1 = codes "threelineshloka") := by
  induction lines using build_macro_segments.induct with
  | case1 =>
    intro h
    exact absurd rfl h
  | case2 x hx size name hname ih =>
    intro _
    have hl : 0 < x.length := List.length_pos.mpr hx
    have hsd : size = segSize x.length := rfl
    rw [hsd] at hname ih
    have heq := build_macro_segments_cons x hx name hname
    by_cases h3 : 3 < x.length
    · have hsz : segSize x.length = 2 := segSize_gt3 _ h3
      rw [hsz] at heq hname
      have hdne : x.drop 2 ≠ [] := by
        intro e
        have := congrArg List.length e
        simp at this
        omega
      obtain ⟨ih1, ih2, ih3, ih4, ih5, ih6⟩ := by
        rw [hsz] at ih
        exact ih hdne
      have htake : (x.take 2).length = 2 := by
        simp
        omega
      have hname2 : name = codes "twolineshloka" := by
        have : MACRO_BY_LINE_COUNT 2 = some (codes "twolineshloka") := rfl
        rw [this] at hname
        exact (Option.some.inj hname).symm
      refine ⟨?_, ?_, ?_, ?_, ?_, ?_⟩
      · rw [heq]
        simp only [List.map_cons, List.sum_cons, htake, ih1, List.length_drop]
        omega
      · rw [heq]
        exact List.cons_ne_nil _ _
      · rw [heq]
        intro s hs
        rcases List.mem_cons.mp hs with rfl | hs
        · simp [htake]
        · exact ih3 s hs
      · intro _
        rw [heq, List.dropLast_cons_of_ne_nil ih2]
        intro s hs
        rcases List.mem_cons.mp hs with rfl | hs
        · exact htake
        · by_cases h32 : 3 < x.length - 2
          · refine ih4 (by simpa using h32) s hs
          · have hlen1 : (build_macro_segments (x.drop 2)).length = 1 := by
              refine ih5 ?_
              simp
              omega
            obtain ⟨y, hy⟩ := List.length_eq_one.mp hlen1
            rw [hy] at hs
            simp at hs
      · intro hle
        omega
      · rw [heq]
        intro s hs
        rcases List.mem_cons.mp hs with rfl | hs
        · right
          left
          exact hname2
        · exact ih6 s hs
    · have hle : x.length ≤ 3 := by omega
      have hsz : segSize x.length = x.length := segSize_small _ hl hle
      rw [hsz] at heq hname
      rw [List.take_length, List.drop_length, build_macro_segments_nil] at heq
      have hbound : 1 ≤ x.length ∧ x.length ≤ 3 := ⟨hl, hle⟩
      have hname3 : name = codes "onelineshloka" ∨ name = codes "twolineshloka"
          ∨ name = codes "threelineshloka" := by
        rcases hlen : x.length with _ | _ | _ | _ | m
        · omega
        · rw [hlen] at hname
          exact Or.inl (Option.some.inj hname).symm
        · rw [hlen] at hname
          exact Or.inr (Or.inl (Option.some.inj hname).symm)
        · rw [hlen] at hname
          exact Or.inr (Or.inr (Option.some.inj hname).symm)
        · omega
      refine ⟨?_, ?_, ?_, ?_, ?_, ?_⟩
      · rw [heq]
        simp
      · rw [heq]
        exact List.cons_ne_nil _ _
      · rw [heq]
        intro s hs
        rcases List.mem_cons.mp hs with rfl | hs
        · exact hbound
        · simp at hs
      · intro h3x
        omega
      · intro _
        rw [heq]
        rfl
      · rw [heq]
        intro s hs
        rcases List.mem_cons.mp hs with rfl | hs
        · exact hname3
        · simp at hs
  | case3 x hx size hnone =>
    intro _
    have hl : 0 < x.length := List.length_pos.mpr hx
    have hsd : size = segSize x.length := rfl
    rw [hsd] at hnone
    have := macro_segSize_isSome x.length hl
    rw [hnone] at this
    simp at this

/-- Claim C1: for every non-empty line list, `build_macro_segments`
returns segments whose line counts sum exactly to the input length, every
segment has between one and three lines, the segment list is non-empty,
and when more than three lines are given every segment except possibly the
last has exactly two lines (two-line segments are emitted greedily from
the front until the remainder is at most three). -/
theorem build_macro_segments_claim (lines : List PyStr) (h : lines ≠ []) :
    ((build_macro_segments lines).map (fun s => s.2.length)).sum = lines.length
    ∧ build_macro_segments lines ≠ []
    ∧ (∀ s ∈ build_macro_segments lines, 1 ≤ s.2.length ∧ s.2.length ≤ 3)
    ∧ (3 < lines.length →
        ∀ s ∈ (build_macro_segments lines).dropLast, s.2.length = 2) := by
  obtain ⟨h1, h2, h3, h4, _, _⟩ := build_segments_aux lines h
  exact ⟨h1, h2, h3, h4⟩

/-- Claim C1, witness at a five-line verse. -/
theorem build_macro_segments_claim_witness :
    (([codes "a", codes "b", codes "c", codes "d", codes "e"] : List PyStr) ≠ [])
    ∧ (((build_macro_segments [codes "a", codes "b", codes "c", codes "d", codes "e"]).map
          (fun s => s.2.length)).sum
        = ([codes "a", codes "b", codes "c", codes "d", codes "e"] : List PyStr).length
      ∧ build_macro_segments [codes "a", codes "b", codes "c", codes "d", codes "e"] ≠ []
      ∧ (∀ s ∈ build_macro_segments [codes "a", codes "b", codes "c", codes "d", codes "e"],
          1 ≤ s.2.length ∧ s.2.length ≤ 3)
      ∧ (3 < ([codes "a", codes "b", codes "c", codes "d", codes "e"] : List PyStr).length →
          ∀ s ∈ (build_macro_segments
            [codes "a", codes "b", codes "c", codes "d", codes "e"]).dropLast,
            s.2.length = 2)) :=
  ⟨by decide,
   build_macro_segments_claim [codes "a", codes "b", codes "c", codes "d", codes "e"]
     (by decide)⟩

theorem getLast?_cons_ne {α : Type} (a : α) (l : List α) (h : l ≠ []) :
    (a :: l).getLast? = l.getLast? := by
  cases l with
  | nil => exact absurd rfl h
  | cons b t => exact List.getLast?_cons_cons

theorem natDigitsAux_ne_nil (fuel n : Nat) (acc : PyStr) :
    natDigitsAux fuel n acc ≠ [] := by
  induction fuel generalizing n acc with
  | zero => simp [natDigitsAux]
  | succ m ih =>
    rw [natDigitsAux]
    split
    · simp
    · exact ih _ _

theorem natDigitsAux_getLast_acc (fuel : Nat) :
    ∀ (n : Nat) (acc : PyStr), acc ≠ [] →
      (natDigitsAux fuel n acc).getLast? = acc.getLast? := by
  induction fuel with
  | zero =>
    intro n acc h
    rw [natDigitsAux]
    exact getLast?_cons_ne _ _ h
  | succ m ih =>
    intro n acc h
    rw [natDigitsAux]
    split
    · exact getLast?_cons_ne _ _ h
    · rw [ih (n / 10) ((48 + n % 10) :: acc) (List.cons_ne_nil _ _)]
      exact getLast?_cons_ne _ _ h

theorem natDigits_getLast (n : Nat) :
    ∃ c, (natDigits n).getLast? = some c ∧ isAsciiDigit c = true := by
  unfold natDigits
  cases n with
  | zero => exact ⟨48, rfl, by decide⟩
  | succ m =>
    rw [natDigitsAux]
    split
    · rename_i hlt
      refine ⟨48 + (m + 1), rfl, ?_⟩
      simp only [isAsciiDigit, decide_eq_true_eq]
      omega
    · rw [natDigitsAux_getLast_acc m ((m + 1) / 10) _ (List.cons_ne_nil _ _)]
      refine ⟨48 + (m + 1) % 10, rfl, ?_⟩
      simp only [isAsciiDigit, decide_eq_true_eq]
      have := Nat.mod_lt (m + 1) (show 0 < 10 by omega)
      omega

theorem natDigitsAux_chars (fuel : Nat) :
    ∀ (n : Nat) (acc : PyStr), n ≤ fuel ∨ n < 10 →
      (∀ c ∈ acc, isAsciiDigit c = true) →
      ∀ c ∈ natDigitsAux fuel n acc, isAsciiDigit c = true := by
  induction fuel with
  | zero =>
    intro n acc hb hacc c hc
    have hn : n < 10 := by omega
    rw [natDigitsAux] at hc
    rcases List.mem_cons.mp hc with rfl | hc
    · simp only [isAsciiDigit, decide_eq_true_eq]
      omega
    · exact hacc c hc
  | succ m ih =>
    intro n acc hb hacc c hc
    rw [natDigitsAux] at hc
    split at hc
    · rename_i hlt
      rcases List.mem_cons.mp hc with rfl | hc
      · simp only [isAsciiDigit, decide_eq_true_eq]
        omega
      · exact hacc c hc
    · rename_i hge
      refine ih (n / 10) _ (Or.inl ?_) ?_ c hc
      · have h1 : n / 10 < n := Nat.div_lt_self (by omega) (by omega)
        omega
      · intro d hd
        rcases List.mem_cons.mp hd with rfl | hd
        · simp only [isAsciiDigit, decide_eq_true_eq]
          have := Nat.mod_lt n (show 0 < 10 by omega)
          omega
        · exact hacc d hd

theorem natDigits_chars (n : Nat) : ∀ c ∈ natDigits n, isAsciiDigit c = true :=
  natDigitsAux_chars n n [] (Or.inl le_rfl) (by simp)

theorem natDigits_ne_nil (n : Nat) : natDigits n ≠ [] := natDigitsAux_ne_nil n n []

theorem pyFormat03_ne_nil (n : Int) : pyFormat03 n ≠ [] := by
  unfold pyFormat03
  split
  · simp
  · unfold zfill
    intro h
    have := natDigits_ne_nil n.toNat
    rcases List.append_eq_nil.mp h with ⟨_, h2⟩
    exact this h2

theorem pyFormat03_getLast (n : Int) :
    ∃ c, (pyFormat03 n).getLast? = some c ∧ isAsciiDigit c = true := by
  unfold pyFormat03
  split
  · obtain ⟨c, hc, hd⟩ := natDigits_getLast n.natAbs
    refine ⟨c, ?_, hd⟩
    rw [getLast?_cons_ne _ _ ?hz]
    case hz =>
      unfold zfill
      intro h
      rcases List.append_eq_nil.mp h with ⟨_, h2⟩
      exact natDigits_ne_nil n.natAbs h2
    unfold zfill
    rw [getLast?_append_right _ _ (natDigits_ne_nil n.natAbs)]
    exact hc
  · obtain ⟨c, hc, hd⟩ := natDigits_getLast n.toNat
    refine ⟨c, ?_, hd⟩
    unfold zfill
    rw [getLast?_append_right _ _ (natDigits_ne_nil n.toNat)]
    exact hc

theorem pyFormat03_chars (n : Int) :
    ∀ c ∈ pyFormat03 n, isAsciiDigit c = true ∨ c = 45 := by
  unfold pyFormat03
  split
  · intro c hc
    rcases List.mem_cons.mp hc with rfl | hc
    · exact Or.inr rfl
    · unfold zfill at hc
      rcases List.mem_append.mp hc with hc | hc
      · have := List.eq_of_mem_replicate hc
        subst this
        exact Or.inl (by decide)
      · exact Or.inl (natDigits_chars _ c hc)
  · intro c hc
    unfold zfill at hc
    rcases List.mem_append.mp hc with hc | hc
    · have := List.eq_of_mem_replicate hc
      subst this
      exact Or.inl (by decide)
    · exact Or.inl (natDigits_chars _ c hc)

theorem intToStr_chars (n : Int) :
    ∀ c ∈ intToStr n, isAsciiDigit c = true ∨ c = 45 := by
  unfold intToStr
  split
  · intro c hc
    rcases List.mem_cons.mp hc with rfl | hc
    · exact Or.inr rfl
    · exact Or.inl (natDigits_chars _ c hc)
  · intro c hc
    exact Or.inl (natDigits_chars _ c hc)

theorem verse_identifier_ne_nil (kanda sarga shno : Int) :
    verse_identifier kanda sarga shno ≠ [] := by
  unfold verse_identifier
  intro h
  rcases List.append_eq_nil.mp h with ⟨_, h2⟩
  exact List.cons_ne_nil _ _ h2

theorem verse_identifier_getLast (kanda sarga shno : Int) :
    ∃ c, (verse_identifier kanda sarga shno).getLast? = some c
      ∧ isAsciiDigit c = true := by
  obtain ⟨c, hc, hd⟩ := pyFormat03_getLast shno
  refine ⟨c, ?_, hd⟩
  unfold verse_identifier
  rw [getLast?_append_right _ _ (by simp),
    getLast?_cons_ne _ _ (pyFormat03_ne_nil shno)]
  exact hc

theorem verse_identifier_chars (kanda sarga shno : Int) :
    ∀ c ∈ verse_identifier kanda sarga shno, isAsciiDigit c = true ∨ c = 45 := by
  unfold verse_identifier
  intro c hc
  rcases List.mem_append.mp hc with hc | hc
  · rcases List.mem_append.mp hc with hc | hc
    · exact intToStr_chars kanda c hc
    · rcases List.mem_cons.mp hc with rfl | hc
      · exact Or.inr rfl
      · exact pyFormat03_chars sarga c hc
  · rcases List.mem_cons.mp hc with rfl | hc
    · exact Or.inr rfl
    · exact pyFormat03_chars shno c hc

theorem getLast?_of_suffix {s l : PyStr} (h : s <:+ l) (hs : s ≠ []) :
    l.getLast? = s.getLast? := by
  obtain ⟨t, rfl⟩ := h
  exact getLast?_append_right t s hs

theorem suffix_append_self (a s : PyStr) : s <:+ a ++ s := ⟨a, rfl⟩

theorem countP_flatten (p : PyStr → Bool) (ll : List (List PyStr)) :
    (ll.flatten).countP p = (ll.map (fun l => l.countP p)).sum := by
  induction ll with
  | nil => rfl
  | cons x rest ih =>
    rw [List.flatten_cons, List.countP_append, List.map_cons, List.sum_cons, ih]

theorem sfx_not_suffix_of_last_ne (sfx l : PyStr) (hs : sfx ≠ [])
    (h : ∀ c c2, sfx.getLast? = some c → l.getLast? = some c2 → c ≠ c2) :
    ¬ sfx <:+ l := by
  intro hsuf
  have hl := getLast?_of_suffix hsuf hs
  cases hgs : sfx.getLast? with
  | none => exact hs (List.getLast?_eq_none_iff.mp hgs)
  | some c =>
    rw [hgs] at hl
    exact h c c hgs hl rfl

theorem suffix_through_nl (s : PyStr) (hnl : 10 ∉ s) :
    ∀ (a b : PyStr), s <:+ a ++ 10 :: b → s <:+ b := by
  intro a
  induction a with
  | nil =>
    intro b h
    rcases List.suffix_cons_iff.mp h with h | h
    · exact absurd (h ▸ List.mem_cons_self 10 b) hnl
    · exact h
  | cons x a ih =>
    intro b h
    rw [List.cons_append] at h
    rcases List.suffix_cons_iff.mp h with h | h
    · exfalso
      apply hnl
      rw [h]
      simp
    · exact ih b h

theorem pyJoin_cons (sep x : PyStr) (l : List PyStr) (h : l ≠ []) :
    pyJoin sep (x :: l) = x ++ sep ++ pyJoin sep l := by
  cases l with
  | nil => exact absurd rfl h
  | cons y t => rfl

theorem pyJoin_suffix_last (s y : PyStr) (hs : s <:+ y) :
    ∀ xs : List PyStr, s <:+ pyJoin [10] (xs ++ [y]) := by
  intro xs
  induction xs with
  | nil => exact hs
  | cons x rest ih =>
    rw [List.cons_append, pyJoin_cons _ _ _ (by simp)]
    exact ih.trans (suffix_append_self _ _)

theorem pyJoin_no_suffix (s : PyStr) (hs : s ≠ []) (hnl : 10 ∉ s) :
    ∀ ls : List PyStr, (∀ x ∈ ls, ¬ s <:+ x) → ¬ s <:+ pyJoin [10] ls := by
  intro ls
  induction ls with
  | nil =>
    intro _ h
    rw [show pyJoin [10] ([] : List PyStr) = [] from rfl, List.suffix_nil] at h
    exact hs h
  | cons x rest ih =>
    intro hx h
    cases hr : rest with
    | nil =>
      subst hr
      exact hx x (by simp) h
    | cons y t =>
      rw [pyJoin_cons _ _ _ (by simp [hr])] at h
      rw [List.append_assoc] at h
      have h2 := suffix_through_nl s hnl x (pyJoin [10] rest) (by simpa using h)
      exact ih (fun z hz => hx z (by simp [hz])) h2

theorem format_body_none (name : PyStr) (ls : List PyStr) :
    format_shloka_macro_body name ls none
      = (92 :: name)
        :: ls.enum.map (fun p => (123 :: (tex_escape p.2 ++ [125])) ++ ([] : PyStr)) := by
  unfold format_shloka_macro_body
  simp [pyTruthyOptStr]

theorem format_body_some (name : PyStr) (ls : List PyStr) (ident : PyStr)
    (hls : ls ≠ []) (hid : ident ≠ []) :
    ∃ pre lastx,
      format_shloka_macro_body name ls (some ident)
        = (92 :: name)
          :: (pre ++ [(123 :: (tex_escape lastx ++ [125])) ++ (32 :: (37 :: ident))])
      ∧ ∀ l ∈ pre, ∃ x, l = (123 :: (tex_escape x ++ [125])) ++ ([] : PyStr) := by
  have hb : pyTruthyOptStr (some ident) = true := by simp [pyTruthyOptStr, hid]
  have key : ∀ (ls2 : List PyStr) (k N : Nat), ls2 ≠ [] → N = k + ls2.length →
      ∃ pre lastx,
        (List.enumFrom k ls2).map
          (fun p => (123 :: (tex_escape p.2 ++ [125]))
            ++ (if decide (p.1 + 1 = N) = true then 32 :: (37 :: ident) else []))
        = pre ++ [(123 :: (tex_escape lastx ++ [125])) ++ (32 :: (37 :: ident))]
        ∧ ∀ l ∈ pre, ∃ x, l = (123 :: (tex_escape x ++ [125])) ++ ([] : PyStr) := by
    intro ls2
    induction ls2 with
    | nil =>
      intro k N hcon _
      exact absurd rfl hcon
    | cons x rest ih =>
      intro k N _ hN
      rcases eq_or_ne rest [] with rfl | hrest
      · refine ⟨[], x, ?_, by simp⟩
        rw [show List.enumFrom k [x] = [(k, x)] from rfl, List.map_cons, List.map_nil]
        rw [if_pos]
        · rfl
        · simp only [decide_eq_true_eq]
          simp at hN
          omega
      · have hlenpos : 0 < rest.length := List.length_pos.mpr hrest
        obtain ⟨pre, lastx, heq, hpre⟩ := ih (k + 1) N hrest (by simp at hN ⊢; omega)
        refine ⟨((123 :: (tex_escape x ++ [125])) ++ ([] : PyStr)) :: pre, lastx, ?_, ?_⟩
        · rw [show List.enumFrom k (x :: rest) = (k, x) :: List.enumFrom (k + 1) rest from rfl,
            List.map_cons, heq, if_neg]
          · rfl
          · simp only [decide_eq_true_eq]
            simp at hN
            omega
        · intro l hl
          rcases List.mem_cons.mp hl with rfl | hl
          · exact ⟨x, rfl⟩
          · exact hpre l hl
  obtain ⟨pre, lastx, heq, hpre⟩ := key ls 0 ls.length hls (by simp)
  refine ⟨pre, lastx, ?_, hpre⟩
  unfold format_shloka_macro_body
  simp only [hb, Bool.true_and, Option.getD_some]
  rw [show ls.enum = List.enumFrom 0 ls from rfl]
  rw [heq]

theorem header_no_sfx (name sfx : PyStr) (c : Nat)
    (hname : name = codes "onelineshloka" ∨ name = codes "twolineshloka"
      ∨ name = codes "threelineshloka")
    (hlast : sfx.getLast? = some c) (hc : isAsciiDigit c = true) :
    ¬ sfx <:+ (92 :: name) := by
  have hsne : sfx ≠ [] := by
    intro e
    rw [e] at hlast
    simp at hlast
  apply sfx_not_suffix_of_last_ne _ _ hsne
  intro c1 c2 h1 h2
  rw [hlast] at h1
  injection h1 with h1
  subst h1
  have h97 : (92 :: name : PyStr).getLast? = some 97 := by
    rcases hname with rfl | rfl | rfl <;> decide
  rw [h97] at h2
  injection h2 with h2
  subst h2
  simp only [isAsciiDigit, decide_eq_true_eq] at hc
  omega

theorem brace_line_no_sfx (x sfx : PyStr) (c : Nat)
    (hlast : sfx.getLast? = some c) (hc : isAsciiDigit c = true) :
    ¬ sfx <:+ (123 :: (tex_escape x ++ [125])) ++ ([] : PyStr) := by
  have hsne : sfx ≠ [] := by
    intro e
    rw [e] at hlast
    simp at hlast
  apply sfx_not_suffix_of_last_ne _ _ hsne
  intro c1 c2 h1 h2
  rw [hlast] at h1
  injection h1 with h1
  subst h1
  have h125 : ((123 :: (tex_escape x ++ [125])) ++ ([] : PyStr)).getLast? = some 125 := by
    rw [List.append_nil, getLast?_cons_ne _ _ (by simp),
      getLast?_append_right _ _ (by simp)]
    rfl
  rw [h125] at h2
  injection h2 with h2
  subst h2
  simp only [isAsciiDigit, decide_eq_true_eq] at hc
  omega

theorem none_body_no_sfx (name : PyStr)
    (hname : name = codes "onelineshloka" ∨ name = codes "twolineshloka"
      ∨ name = codes "threelineshloka")
    (ls : List PyStr) (sfx : PyStr) (c : Nat)
    (hlast : sfx.getLast? = some c) (hc : isAsciiDigit c = true) :
    ∀ l ∈ format_shloka_macro_body name ls none, ¬ sfx <:+ l := by
  intro l hl
  rw [format_body_none] at hl
  rcases List.mem_cons.mp hl with rfl | hl
  · exact header_no_sfx name sfx c hname hlast hc
  · obtain ⟨p, _, rfl⟩ := List.mem_map.mp hl
    exact brace_line_no_sfx p.2 sfx c hlast hc

theorem segment_renders_split (ident : PyStr) :
    ∀ (segs : List (PyStr × List PyStr)), segs ≠ [] →
    ∃ preR lastSeg, lastSeg ∈ segs
      ∧ segment_renders ident segs = preR ++ [(lastSeg.1, lastSeg.2, some ident)]
      ∧ ∀ r ∈ preR, ∃ s, s ∈ segs ∧ r = (s.1, s.2, (none : Option PyStr)) := by
  have key : ∀ (segs : List (PyStr × List PyStr)) (k N : Nat), segs ≠ [] →
      N = k + segs.length →
      ∃ preR lastSeg, lastSeg ∈ segs
        ∧ (List.enumFrom k segs).map
            (fun p => (p.2.1, p.2.2, if p.1 + 1 = N then some ident else none))
          = preR ++ [(lastSeg.1, lastSeg.2, some ident)]
        ∧ ∀ r ∈ preR, ∃ s, s ∈ segs ∧ r = (s.1, s.2, (none : Option PyStr)) := by
    intro segs
    induction segs with
    | nil =>
      intro k N hcon _
      exact absurd rfl hcon
    | cons x rest ih =>
      intro k N _ hN
      rcases eq_or_ne rest [] with rfl | hrest
      · refine ⟨[], x, by simp, ?_, by simp⟩
        rw [show List.enumFrom k [x] = [(k, x)] from rfl, List.map_cons, List.map_nil]
        rw [if_pos]
        · rfl
        · simp at hN
          omega
      · have hlenpos : 0 < rest.length := List.length_pos.mpr hrest
        obtain ⟨preR, lastSeg, hmem, heq, hpre⟩ := ih (k + 1) N hrest (by simp at hN ⊢; omega)
        refine ⟨(x.1, x.2, (none : Option PyStr)) :: preR, lastSeg, by simp [hmem], ?_, ?_⟩
        · rw [show List.enumFrom k (x :: rest) = (k, x) :: List.enumFrom (k + 1) rest from rfl,
            List.map_cons, heq, if_neg]
          · rfl
          · simp at hN
            omega
        · intro r hr
          rcases List.mem_cons.mp hr with rfl | hr
          · exact ⟨x, by simp⟩
          · obtain ⟨s, hs, hr2⟩ := hpre r hr
            exact ⟨s, by simp [hs], hr2⟩
  intro segs hne
  obtain ⟨preR, lastSeg, hmem, heq, hpre⟩ := key segs 0 segs.length hne (by simp)
  refine ⟨preR, lastSeg, hmem, ?_, hpre⟩
  unfold segment_renders
  rw [show segs.enum = List.enumFrom 0 segs from rfl]
  exact heq

/-- Claim C2: for every verse the assembler renders (an entry with a
non-empty line list, at one-based position `i` among the processed
records), the composite identifier comment appears exactly once among the
lines the verse contributes: exactly one line carries the percent-comment
suffix with the identifier, that line is the overall last line of the
verse (the last line of its final segment, so no other segment carries
it), and the verse component of the identifier is the declared number when
present and the position `i` otherwise. -/
theorem verse_identifier_once (kanda sarga i : Int) (entry : ShlokaEntry)
    (h : entry.lines ≠ []) :
    ((verse_body_lines kanda sarga i entry).countP
        (fun l => decide
          ((32 :: (37 :: verse_identifier kanda sarga (shloka_number i entry))) <:+ l))
      = 1)
    ∧ (∃ rest lastL, verse_body_lines kanda sarga i entry = rest ++ [lastL]
        ∧ (32 :: (37 :: verse_identifier kanda sarga (shloka_number i entry))) <:+ lastL)
    ∧ (∀ n, entry.number = some n → shloka_number i entry = n)
    ∧ (entry.number = none → shloka_number i entry = i) := by
  obtain ⟨c, hlastc, hcd⟩ := verse_identifier_getLast kanda sarga (shloka_number i entry)
  have hid_ne := verse_identifier_ne_nil kanda sarga (shloka_number i entry)
  set ident := verse_identifier kanda sarga (shloka_number i entry) with hident
  set sfx : PyStr := 32 :: (37 :: ident) with hsfx
  have hsfx_last : sfx.getLast? = some c := by
    rw [hsfx, getLast?_cons_ne _ _ (by simp), getLast?_cons_ne _ _ hid_ne]
    exact hlastc
  obtain ⟨hsum, hne, hbounds, hdl, hsmall, hnames⟩ := build_segments_aux entry.lines h
  obtain ⟨preR, lastSeg, hmem, hrend, hpreR⟩ :=
    segment_renders_split ident (build_macro_segments entry.lines) hne
  have hlast_ne : lastSeg.2 ≠ [] := by
    have h1 := (hbounds lastSeg hmem).1
    intro e
    rw [e] at h1
    simp at h1
  obtain ⟨pre2, lastx, hbody, hpre2⟩ :=
    format_body_some lastSeg.1 lastSeg.2 ident hlast_ne hid_ne
  rw [← hsfx] at hbody
  have hvbl : verse_body_lines kanda sarga i entry
      = ((preR.map (fun r => format_shloka_macro_body r.1 r.2.1 r.2.2)).flatten)
        ++ format_shloka_macro_body lastSeg.1 lastSeg.2 (some ident) := by
    unfold verse_body_lines
    rw [← hident, hrend, List.map_append, List.map_cons, List.map_nil,
      List.flatten_append]
    simp
  have hA_no : ∀ l ∈ (preR.map
      (fun r => format_shloka_macro_body r.1 r.2.1 r.2.2)).flatten, ¬ sfx <:+ l := by
    intro l hl
    obtain ⟨body, hbodymem, hlmem⟩ := List.mem_flatten.mp hl
    obtain ⟨r, hrmem, rfl⟩ := List.mem_map.mp hbodymem
    obtain ⟨s, hsmem, rfl⟩ := hpreR r hrmem
    exact none_body_no_sfx s.1 (hnames s hsmem) s.2 sfx c hsfx_last hcd l hlmem
  refine ⟨?_, ?_, ?_, ?_⟩
  · rw [hvbl, hbody, List.countP_append, List.countP_cons, List.countP_append,
      List.countP_cons, List.countP_nil]
    have hA0 : List.countP (fun l => decide (sfx <:+ l))
        ((preR.map (fun r => format_shloka_macro_body r.1 r.2.1 r.2.2)).flatten) = 0 :=
      List.countP_eq_zero.mpr (fun l hl => by simpa using hA_no l hl)
    have hpre20 : List.countP (fun l => decide (sfx <:+ l)) pre2 = 0 :=
      List.countP_eq_zero.mpr (fun l hl => by
        obtain ⟨x, rfl⟩ := hpre2 l hl
        simpa using brace_line_no_sfx x sfx c hsfx_last hcd)
    have hhead : decide (sfx <:+ (92 :: lastSeg.1)) = false := by
      simp only [decide_eq_false_iff_not]
      exact header_no_sfx lastSeg.1 sfx c (hnames lastSeg hmem) hsfx_last hcd
    have hll : decide (sfx <:+ (123 :: (tex_escape lastx ++ [125])) ++ sfx) = true := by
      simp only [decide_eq_true_eq]
      exact suffix_append_self _ _
    rw [hA0, hpre20, hhead, hll]
    simp
  · refine ⟨((preR.map (fun r => format_shloka_macro_body r.1 r.2.1 r.2.2)).flatten)
      ++ ((92 :: lastSeg.1) :: pre2),
      (123 :: (tex_escape lastx ++ [125])) ++ sfx, ?_, suffix_append_self _ _⟩
    rw [hvbl, hbody]
    simp
  · intro n hn
    simp [shloka_number, hn]
  · intro hn
    simp [shloka_number, hn]

/-- Claim C2, witness: a five-line unnumbered verse at position two. -/
theorem verse_identifier_once_witness :
    ((⟨[codes "a", codes "b", codes "c", codes "d", codes "e"], none⟩
        : ShlokaEntry).lines ≠ [])
    ∧ (((verse_body_lines 1 2 2
          ⟨[codes "a", codes "b", codes "c", codes "d", codes "e"], none⟩).countP
          (fun l => decide
            ((32 :: (37 :: verse_identifier 1 2 (shloka_number 2
              ⟨[codes "a", codes "b", codes "c", codes "d", codes "e"], none⟩))) <:+ l))
        = 1)
      ∧ (∃ rest lastL, verse_body_lines 1 2 2
            ⟨[codes "a", codes "b", codes "c", codes "d", codes "e"], none⟩
            = rest ++ [lastL]
          ∧ (32 :: (37 :: verse_identifier 1 2 (shloka_number 2
              ⟨[codes "a", codes "b", codes "c", codes "d", codes "e"], none⟩))) <:+ lastL)
      ∧ (∀ n, (⟨[codes "a", codes "b", codes "c", codes "d", codes "e"], none⟩
            : ShlokaEntry).number = some n
          → shloka_number 2 ⟨[codes "a", codes "b", codes "c", codes "d", codes "e"], none⟩
            = n)
      ∧ ((⟨[codes "a", codes "b", codes "c", codes "d", codes "e"], none⟩
            : ShlokaEntry).number = none
          → shloka_number 2 ⟨[codes "a", codes "b", codes "c", codes "d", codes "e"], none⟩
            = 2)) :=
  ⟨by decide,
   verse_identifier_once 1 2 2
     ⟨[codes "a", codes "b", codes "c", codes "d", codes "e"], none⟩ (by decide)⟩

theorem runAux_invariant (tix : TitleIndex) (ov : Bool) (ts : PyStr) :
    ∀ (fs : List InputFile) (n : Nat) (acc : List (PyStr × Option PyStr)),
    ∃ extra, (runAux tix ov ts fs n acc).1 = acc ++ extra
      ∧ ((runAux tix ov ts fs n acc).2 = .ok (n + extra.length)
        ∨ ∃ e, (runAux tix ov ts fs n acc).2 = .error e) := by
  intro fs
  induction fs with
  | nil =>
    intro n acc
    exact ⟨[], by simp [runAux], Or.inl (by simp [runAux])⟩
  | cons f rest ih =>
    intro n acc
    rw [runAux]
    cases hp : process_file tix ov ts f with
    | error e => exact ⟨[], by simp, Or.inr ⟨e, rfl⟩⟩
    | ok r =>
      cases r with
      | none => exact ih n acc
      | some act =>
        obtain ⟨extra, h1, h2⟩ := ih (n + 1) (acc ++ [act])
        refine ⟨act :: extra, ?_, ?_⟩
        · rw [h1]
          simp
        · rcases h2 with h2 | ⟨e, h2⟩
          · left
            rw [h2]
            simp
            omega
          · exact Or.inr ⟨e, h2⟩

theorem process_file_skip_shape (tix : TitleIndex) (ts : PyStr) (f : InputFile)
    (act : PyStr × Option PyStr) (ho : f.outputExists = true)
    (h : process_file tix false ts f = .ok (some act)) : act.2 = none := by
  unfold process_file at h
  cases hp : f.parse with
  | error e =>
    rw [hp] at h
    simp only [Bind.bind, Except.bind] at h
    exact Except.noConfusion h
  | ok data =>
    rw [hp] at h
    simp only [Bind.bind, Except.bind] at h
    split at h
    · simp only [pure, Except.pure] at h
      simp at h
    · cases hm : f.meta with
      | error e =>
        rw [hm] at h
        exact Except.noConfusion h
      | ok m =>
        rw [hm] at h
        cases hsn : f.sargaNum with
        | error e =>
          rw [hsn] at h
          exact Except.noConfusion h
        | ok sarga =>
          rw [hsn] at h
          simp only [ho, Bool.not_false, Bool.and_true, if_true] at h
          simp only [pure, Except.pure, Except.ok.injEq, Option.some.injEq] at h
          rw [← h]

/-- Claim C9, counterexample: a run over a healthy first file followed by
a chapter file whose JSON does not parse produces (and writes) one output
file and still exits with status 1, because the `SystemExit` raised for
the second file aborts the whole run; so a non-zero exit status does not
imply that zero files were produced. -/
theorem run_exit_nonzero_after_produce_counterexample :
    main_exit ⟨[], []⟩ false (codes "TS")
      [⟨codes "1-BalaKanda/1.json", .ok (.arr [.str (codes "क")]),
        .ok (1, codes "bala-kanda", codes "1-BalaKanda"), .ok 1, false⟩,
       ⟨codes "1-BalaKanda/2.json", .error (codes "bad"),
        .ok (1, codes "bala-kanda", codes "1-BalaKanda"), .ok 2, false⟩] = 1
    ∧ (run ⟨[], []⟩ false (codes "TS")
      [⟨codes "1-BalaKanda/1.json", .ok (.arr [.str (codes "क")]),
        .ok (1, codes "bala-kanda", codes "1-BalaKanda"), .ok 1, false⟩,
       ⟨codes "1-BalaKanda/2.json", .error (codes "bad"),
        .ok (1, codes "bala-kanda", codes "1-BalaKanda"), .ok 2, false⟩]).1.length = 1
    ∧ (writesOf (run ⟨[], []⟩ false (codes "TS")
      [⟨codes "1-BalaKanda/1.json", .ok (.arr [.str (codes "क")]),
        .ok (1, codes "bala-kanda", codes "1-BalaKanda"), .ok 1, false⟩,
       ⟨codes "1-BalaKanda/2.json", .error (codes "bad"),
        .ok (1, codes "bala-kanda", codes "1-BalaKanda"), .ok 2, false⟩]).1).length = 1 := by
  refine ⟨?_, ?_, ?_⟩ <;> rfl

theorem writesOf_append (a b : List (PyStr × Option PyStr)) :
    writesOf (a ++ b) = writesOf a ++ writesOf b := by
  simp [writesOf, List.filterMap_append]

theorem runAux_no_writes (tix : TitleIndex) (ts : PyStr) :
    ∀ (fs : List InputFile) (n : Nat) (acc : List (PyStr × Option PyStr)),
    (∀ f ∈ fs, f.outputExists = true) → writesOf acc = [] →
    writesOf (runAux tix false ts fs n acc).1 = [] := by
  intro fs
  induction fs with
  | nil =>
    intro n acc _ hacc
    simpa [runAux] using hacc
  | cons f rest ih =>
    intro n acc hex hacc
    rw [runAux]
    cases hp : process_file tix false ts f with
    | error e => simpa using hacc
    | ok r =>
      cases r with
      | none => exact ih n acc (fun g hg => hex g (by simp [hg])) hacc
      | some act =>
        refine ih (n + 1) (acc ++ [act]) (fun g hg => hex g (by simp [hg])) ?_
        rw [writesOf_append, hacc]
        have hact := process_file_skip_shape tix ts f act (hex f (by simp)) hp
        simp [writesOf, hact]

/-- Claim C9, amended: the exit status is non-zero whenever zero files
were produced, and for runs that complete without a fatal error the exit
status is zero exactly when at least one file was produced — where a
skipped existing output counts as produced, because `process_file`
returns its path without writing.  A fatal error (`SystemExit`) aborts
the run with exit status 1 even when files were already produced.  With
the overwrite flag unset, an input whose output already exists and which
has usable verse data and valid path metadata is skipped: `process_file`
returns its output path with no write, and a run over only such inputs
performs no write at all, leaving every existing file unchanged. -/
theorem run_exit_status_amended (tix : TitleIndex) (ov : Bool) (ts : PyStr)
    (files : List InputFile) :
    (main_exit tix ov ts files = 0 → (run tix ov ts files).1 ≠ [])
    ∧ (∀ n, (run tix ov ts files).2 = .ok n →
        (n = (run tix ov ts files).1.length
          ∧ (main_exit tix ov ts files = 0 ↔ n ≠ 0)))
    ∧ (∀ e, (run tix ov ts files).2 = .error e → main_exit tix ov ts files = 1)
    ∧ (∀ f data m sarga, f.parse = .ok data
        → ((find_shlokas data).filter (fun e => decide (e.lines ≠ []))).isEmpty = false
        → f.meta = .ok m → f.sargaNum = .ok sarga
        → f.outputExists = true
        → process_file tix false ts f
          = .ok (some (m.2.2 ++ (47 :: m.2.1) ++ codes "-sarga-" ++ pyFormat03 sarga
              ++ codes ".tex", none)))
    ∧ ((∀ f ∈ files, f.outputExists = true) →
        writesOf (run tix false ts files).1 = []) := by
  obtain ⟨extra, hacts, hsnd⟩ := runAux_invariant tix ov ts files 0 []
  have hrun1 : (run tix ov ts files).1 = extra := by
    rw [run, hacts]
    simp
  refine ⟨?_, ?_, ?_, ?_, ?_⟩
  · intro hz
    rcases hsnd with hok | ⟨e, herr⟩
    · have hme : main_exit tix ov ts files = if extra.length ≠ 0 then 0 else 1 := by
        unfold main_exit run
        rw [hok]
        simp
      rw [hme] at hz
      split at hz
      · rename_i hlen
        rw [hrun1]
        intro he
        rw [he] at hlen
        simp at hlen
      · simp at hz
    · have hme : main_exit tix ov ts files = 1 := by
        unfold main_exit run
        rw [herr]
      rw [hme] at hz
      simp at hz
  · intro n hn
    rcases hsnd with hok | ⟨e, herr⟩
    · rw [run] at hn
      rw [hok] at hn
      injection hn with h2
      have hn2 : n = extra.length := by omega
      constructor
      · rw [hrun1, hn2]
      · have hme : main_exit tix ov ts files = if extra.length ≠ 0 then 0 else 1 := by
          unfold main_exit run
          rw [hok]
          simp
        rw [hme, hn2]
        constructor
        · intro hz
          split at hz
          · assumption
          · simp at hz
        · intro hnz
          rw [if_pos hnz]
    · rw [run] at hn
      rw [herr] at hn
      exact Except.noConfusion hn
  · intro e he
    rw [run] at he
    unfold main_exit run
    rw [he]
  · intro f data m sarga hp hs hm hsn ho
    unfold process_file
    rw [hp]
    simp only [Bind.bind, Except.bind]
    rw [if_neg (show ¬((List.filter (fun e => decide (e.lines ≠ [])) (find_shlokas data)).isEmpty = true) by rw [hs]; exact Bool.false_ne_true)]
    rw [hm, hsn]
    simp only [ho, Bool.not_false, Bool.and_true, if_true]
    rfl
  · intro hex
    exact runAux_no_writes tix ts files 0 [] hex (by simp [writesOf])

theorem run_exit_status_amended_witness :
    (process_file ⟨[], []⟩ false (codes "TS")
        ⟨codes "1-BalaKanda/1.json", .ok (.arr [.str (codes "क")]),
          .ok (1, codes "bala-kanda", codes "1-BalaKanda"), .ok 1, true⟩
      = .ok (some ((codes "1-BalaKanda" ++ (47 :: codes "bala-kanda")
          ++ codes "-sarga-" ++ pyFormat03 1 ++ codes ".tex"), none)))
    ∧ writesOf (run ⟨[], []⟩ false (codes "TS")
        [⟨codes "1-BalaKanda/1.json", .ok (.arr [.str (codes "क")]),
          .ok (1, codes "bala-kanda", codes "1-BalaKanda"), .ok 1, true⟩]).1 = [] :=
  ⟨(run_exit_status_amended ⟨[], []⟩ false (codes "TS")
      [⟨codes "1-BalaKanda/1.json", .ok (.arr [.str (codes "क")]),
        .ok (1, codes "bala-kanda", codes "1-BalaKanda"), .ok 1, true⟩]).2.2.2.1
      ⟨codes "1-BalaKanda/1.json", .ok (.arr [.str (codes "क")]),
        .ok (1, codes "bala-kanda", codes "1-BalaKanda"), .ok 1, true⟩
      (.arr [.str (codes "क")]) (1, codes "bala-kanda", codes "1-BalaKanda") 1
      rfl rfl rfl rfl rfl,
   (run_exit_status_amended ⟨[], []⟩ false (codes "TS")
      [⟨codes "1-BalaKanda/1.json", .ok (.arr [.str (codes "क")]),
        .ok (1, codes "bala-kanda", codes "1-BalaKanda"), .ok 1, true⟩]).2.2.2.2
      (by intro f hf; rw [List.mem_singleton] at hf; subst hf; rfl)⟩
